import Mathlib

/-!
# Verification of the PointOfSales cart/checkout/inventory engine

A shallow embedding, in Lean 4, of the core data model and operations of the
PointOfSales repository (`main.py`, `src/models.py`,
`src/managers/pos_manager.py`), together with theorems settling the behavioral
claims of the specification.

Conventions of the embedding:
* Python `float` values (prices, money amounts, tax rate) are modelled as `ℚ`.
  Rounding in the code occurs only in display formatting, never in the stored
  values, so the stored arithmetic is exact over `ℚ`.
* Python `int` values are `ℤ` (stock, which the code can drive negative) or
  `ℕ` (cart quantities, which the code only ever increments from 1).
* Python `str` fields are `String`; the pipe-delimited text format is modelled
  at the character-list level (`List Char`), mirroring `str.strip`,
  `str.split('|')` and the f-string serializer of `save_products`.
* Mutation of `self` is modelled by explicit state passing: each method becomes
  a function from the old state to the new state (plus its return value).
* A Python function that can raise inside the `try` of its caller is modelled
  with `Option`/an error flag at the point where the exception escapes.
-/

/-! ## Data model: `src/models.py` -/

namespace Models

/-- `models.Product`: an item in the engine layer (8 fields). -/
structure Product where
  product_id : String
  name : String
  category : String
  price : ℚ
  stock : ℤ
  description : String
  type : String
  unit : String
deriving DecidableEq, Repr

/-- `models.CartItem`: a product together with a quantity. -/
structure CartItem where
  product : Product
  quantity : ℕ
deriving DecidableEq, Repr

end Models

/-! ## The engine: `src/managers/pos_manager.py` -/

/-- A checkout transaction dict as built by `POSManager.checkout`. -/
structure Transaction where
  items : List Models.CartItem
  total : ℚ
  cash_tendered : ℚ
  change : ℚ
deriving DecidableEq, Repr

/-- The mutable state of a `POSManager` instance: its `products`, `cart` and
`sales` attributes. -/
structure POSManager where
  products : List Models.Product
  cart : List Models.CartItem
  sales : List Transaction
deriving DecidableEq, Repr

/-- `POSManager.get_cart_total`: `sum(item.product.price * item.quantity)`. -/
def POSManager.get_cart_total (m : POSManager) : ℚ :=
  (m.cart.map (fun item => item.product.price * (item.quantity : ℚ))).sum

/-- `POSManager.clear_cart`. -/
def POSManager.clear_cart (m : POSManager) : POSManager :=
  { m with cart := [] }

/-- `POSManager.checkout`: if `cash_tendered < total` return `None` leaving the
state untouched; otherwise build the transaction, append it to `sales`, clear
the cart and return it. -/
def POSManager.checkout (m : POSManager) (cash_tendered : ℚ) :
    Option Transaction × POSManager :=
  let total := m.get_cart_total
  if cash_tendered < total then (none, m)
  else
    let change := cash_tendered - total
    let transaction : Transaction :=
      { items := m.cart, total := total, cash_tendered := cash_tendered,
        change := change }
    (some transaction, ({ m with sales := m.sales ++ [transaction] }).clear_cart)

/-- The `for item in self.cart` loop of `POSManager.add_to_cart`. -/
def POSManager.addLoop (product : Models.Product) (quantity : ℕ) :
    List Models.CartItem → List Models.CartItem
  | [] => [⟨product, quantity⟩]
  | item :: rest =>
    if item.product.product_id = product.product_id then
      { item with quantity := item.quantity + quantity } :: rest
    else item :: POSManager.addLoop product quantity rest

/-- `POSManager.add_to_cart`: scan the cart for a line with the same
`product_id`; increment its quantity if found, otherwise append a new line. -/
def POSManager.add_to_cart (m : POSManager) (product : Models.Product)
    (quantity : ℕ) : POSManager :=
  { m with cart := POSManager.addLoop product quantity m.cart }

/-! ## Data model: the product dicts of `main.py` -/

/-- A product dict of `POSApp` (`main.py`): the ten keys produced by
`load_data` and consumed by `save_products` and the cart logic. -/
structure Item where
  id : String
  name : String
  category : String
  category_main : String
  category_sub : String
  type : String
  price : ℚ
  stock : ℤ
  unit : String
  description : String
deriving DecidableEq, Repr

/-- A cart dict of `POSApp.add_to_cart` (`main.py`): keys `id`, `name`,
`type`, `unit`, `price`, `quantity`. -/
structure CartLine where
  id : String
  name : String
  type : String
  unit : String
  price : ℚ
  quantity : ℕ
deriving DecidableEq, Repr

/-! ## Pricing (`POSApp.update_totals` and `POSApp.checkout`, `main.py`) -/

/-- `sum(item['price'] * item['quantity'] for item in self.cart)`, the
subtotal expression shared by `update_totals`, `checkout` and
`finalize_sale`. -/
def cartSubtotal (cart : List CartLine) : ℚ :=
  (cart.map (fun item => item.price * (item.quantity : ℚ))).sum

/-- The `subtotal` local of `POSApp.update_totals`. -/
def update_totals_subtotal (cart : List CartLine) : ℚ := cartSubtotal cart

/-- The `tax` local of `POSApp.update_totals`: `subtotal * CONFIG['tax_rate']`. -/
def update_totals_tax (cart : List CartLine) (tax_rate : ℚ) : ℚ :=
  update_totals_subtotal cart * tax_rate

/-- The `total` local of `POSApp.update_totals`: `subtotal + tax`. -/
def update_totals_total (cart : List CartLine) (tax_rate : ℚ) : ℚ :=
  update_totals_subtotal cart + update_totals_tax cart tax_rate

/-- The `total_amount` local of `POSApp.checkout`:
`sum(item['price'] * item['quantity'] for item in self.cart) * (1 + CONFIG['tax_rate'])`. -/
def checkout_total_amount (cart : List CartLine) (tax_rate : ℚ) : ℚ :=
  cartSubtotal cart * (1 + tax_rate)

/-! ## Cart logic (`POSApp.add_to_cart`, `main.py`) -/

/-- Result of `POSApp.add_to_cart`: either the new cart, or the
"Out of Stock" warning path, which leaves the cart unchanged. -/
inductive AddResult
  | added (cart : List CartLine)
  | outOfStock
deriving DecidableEq, Repr

/-- The `for item in self.cart` search loop of `POSApp.add_to_cart`: increment
the quantity of the first line whose `id` matches, if any. -/
def incrFirst (pid : String) : List CartLine → Option (List CartLine)
  | [] => none
  | line :: rest =>
    if line.id = pid then
      some ({ line with quantity := line.quantity + 1 } :: rest)
    else (incrFirst pid rest).map (line :: ·)

/-- The new cart line dict built by `POSApp.add_to_cart`. -/
def newCartLine (product : Item) : CartLine :=
  { id := product.id, name := product.name, type := product.type,
    unit := product.unit, price := product.price, quantity := 1 }

/-- `POSApp.add_to_cart`: first try to increment an existing line; only for a
fresh add, reject a tangible product with `stock <= 0`; otherwise append a new
line with quantity 1. -/
def add_to_cart (product : Item) (cart : List CartLine) : AddResult :=
  match incrFirst product.id cart with
  | some cart2 => .added cart2
  | none =>
    if product.type = "product" ∧ product.stock ≤ 0 then .outOfStock
    else .added (cart ++ [newCartLine product])

/-! ## Stock decrement (`POSApp.finalize_sale` step 1, `main.py`) -/

/-- The inner `for product in self.products` loop of `finalize_sale`: decrement
the stock of the first product matching the cart item's `id` whose `type` is
`"product"`; the `break` fires only after a decrement. -/
def updateStockOne (cartItem : CartLine) : List Item → List Item
  | [] => []
  | product :: rest =>
    if product.id = cartItem.id ∧ product.type = "product" then
      { product with stock := product.stock - (cartItem.quantity : ℤ) } :: rest
    else product :: updateStockOne cartItem rest

/-- The outer `for cart_item in self.cart` loop of `finalize_sale` step 1. -/
def finalizeUpdateStock (cart : List CartLine) (products : List Item) :
    List Item :=
  cart.foldl (fun ps ci => updateStockOne ci ps) products

/-! ## The sales ledger (`POSApp.finalize_sale` step 2 and
`POSApp.create_sales_summary`, `main.py`)

The ledger file is line oriented; `create_sales_summary` dispatches on the
`startswith` marker of each line and parses the payload after `': '`.  The
embedding models each physical line by its classification under that dispatch:
one constructor per `startswith` branch, carrying the parsed payload, plus
`blank` for the separator lines the writer emits and `other` for anything
else (both fall through every branch of the reader). -/

/-- One line of the `sales.txt` ledger file, classified as by the reader. -/
inductive LedgerLine
  | saleStart
  | idLine (s : String)
  | timestampLine (s : String)
  | itemLine (id name : String) (quantity : ℕ) (price : ℚ) (type unit : String)
  | subtotalLine (q : ℚ)
  | totalLine (q : ℚ)
  | tenderedLine (q : ℚ)
  | saleEnd
  | blank
  | other (s : String)
deriving DecidableEq, Repr

/-- An item dict accumulated by the ledger reader. -/
structure LedgerItem where
  id : String
  name : String
  quantity : ℕ
  price : ℚ
  type : String
  unit : String
deriving DecidableEq, Repr

/-- The `sale` dict being accumulated by the reader between markers: field
keys are present (`some`) once the corresponding line has been seen. -/
structure SaleParse where
  sale_id : Option String
  timestamp : Option String
  subtotal : Option ℚ
  total : Option ℚ
  cash_tendered : Option ℚ
deriving DecidableEq, Repr

/-- The empty `sale = {}` dict. -/
def SaleParse.empty : SaleParse := ⟨none, none, none, none, none⟩

/-- Python truthiness `if sale:` — the dict is non-empty iff some field key
has been set (`items` and `tax` are only set at `--- SALE END ---`). -/
def SaleParse.nonempty (s : SaleParse) : Bool :=
  s.sale_id.isSome || s.timestamp.isSome || s.subtotal.isSome ||
    s.total.isSome || s.cash_tendered.isSome

/-- A completed sale record appended by the reader at `--- SALE END ---`. -/
structure SaleRecord where
  fields : SaleParse
  items : List LedgerItem
  tax : ℚ
deriving DecidableEq, Repr

/-- The `tax` computed at `--- SALE END ---`: `total - subtotal` when both
are present, else `0.0`. -/
def saleTax (s : SaleParse) : ℚ :=
  match s.total, s.subtotal with
  | some t, some sub => t - sub
  | _, _ => 0

/-- The line loop of `POSApp.create_sales_summary`: fold over the file lines,
accumulating `sale` and `items`, appending a record at each
`--- SALE END ---` whose `sale` dict is non-empty. -/
def readLedgerGo : List LedgerLine → SaleParse → List LedgerItem →
    List SaleRecord → List SaleRecord
  | [], _, _, out => out
  | line :: rest, sale, items, out =>
    match line with
    | .saleStart => readLedgerGo rest SaleParse.empty [] out
    | .idLine s => readLedgerGo rest { sale with sale_id := some s } items out
    | .timestampLine s =>
      readLedgerGo rest { sale with timestamp := some s } items out
    | .itemLine id name qty price type unit =>
      readLedgerGo rest sale (items ++ [⟨id, name, qty, price, type, unit⟩]) out
    | .subtotalLine q =>
      readLedgerGo rest { sale with subtotal := some q } items out
    | .totalLine q => readLedgerGo rest { sale with total := some q } items out
    | .tenderedLine q =>
      readLedgerGo rest { sale with cash_tendered := some q } items out
    | .saleEnd =>
      if sale.nonempty then
        readLedgerGo rest sale items (out ++ [⟨sale, items, saleTax sale⟩])
      else readLedgerGo rest sale items out
    | .blank => readLedgerGo rest sale items out
    | .other _ => readLedgerGo rest sale items out

/-- The ledger parse of `POSApp.create_sales_summary` over a whole file. -/
def readLedger (file : List LedgerLine) : List SaleRecord :=
  readLedgerGo file SaleParse.empty [] []

/-- The block of lines appended to `sales.txt` by `POSApp.finalize_sale`
step 2 for one sale. -/
def saleBlock (sale_id timestamp : String) (cart : List CartLine)
    (subtotal total tendered : ℚ) : List LedgerLine :=
  [.saleStart, .idLine sale_id, .timestampLine timestamp]
    ++ cart.map (fun i => .itemLine i.id i.name i.quantity i.price i.type i.unit)
    ++ [.subtotalLine subtotal, .totalLine total, .tenderedLine tendered,
        .saleEnd, .blank]

/-- The ledger item the reader recovers from a written cart line. -/
def cartLineLedgerItem (i : CartLine) : LedgerItem :=
  ⟨i.id, i.name, i.quantity, i.price, i.type, i.unit⟩

/-- The sale record the reader recovers from a complete written block. -/
def saleBlockRecord (sale_id timestamp : String) (cart : List CartLine)
    (subtotal total tendered : ℚ) : SaleRecord :=
  { fields := ⟨some sale_id, some timestamp, some subtotal, some total,
      some tendered⟩,
    items := cart.map cartLineLedgerItem,
    tax := total - subtotal }

/-! ## The GUI application state (`POSApp`, `main.py`) -/

/-- The mutable state of a `POSApp` instance relevant to the engine: its
`products` and `cart` attributes and the on-disk `sales.txt` ledger. -/
structure AppState where
  products : List Item
  cart : List CartLine
  sales_file : List LedgerLine
deriving DecidableEq, Repr

/-- `POSApp.finalize_sale`: decrement stock of tangible products in the cart,
append the sale block to `sales.txt`, and clear the cart.  `sale_id` and
`timestamp` stand for the generated `uuid.uuid4()` and `now().isoformat()`. -/
def finalize_sale (st : AppState) (total tendered : ℚ)
    (sale_id timestamp : String) : AppState :=
  let subtotal := cartSubtotal st.cart
  { products := finalizeUpdateStock st.cart st.products,
    cart := [],
    sales_file := st.sales_file ++
      saleBlock sale_id timestamp st.cart subtotal total tendered }

/-- `PaymentDialog.process`: if `tendered < self.total`, show the
"Insufficient Funds" error and return without invoking the finalize
callback; otherwise finalize the sale. -/
def PaymentDialog.process (st : AppState) (total tendered : ℚ)
    (sale_id timestamp : String) : AppState :=
  if tendered < total then st
  else finalize_sale st total tendered sale_id timestamp

/-! ## Numeric text conversions

Models of Python's `str`/`float`/`int` conversions used by the catalog
serializers.  Python floats are modelled as `ℚ`; `str(x)` for a float is
modelled for values with a finite decimal expansion (the printable branch),
which is the class the round-trip theorems quantify over. -/

/-- The character of a single decimal digit (only applied below 10). -/
def digitChar (d : ℕ) : Char := Char.ofNat (48 + d)

/-- The value of a decimal digit character, `none` on a non-digit. -/
def digitVal (c : Char) : Option ℕ :=
  if '0' ≤ c ∧ c ≤ '9' then some (c.toNat - 48) else none

/-- Big-endian decimal digits of a positive number, with explicit fuel so
that the definition reduces by iota (`fuel ≥ n` suffices). -/
def digitsBEAux : ℕ → ℕ → List ℕ
  | 0, _ => []
  | fuel + 1, n => if n = 0 then [] else digitsBEAux fuel (n / 10) ++ [n % 10]

/-- The big-endian decimal digit list of a natural number (Python prints
`0` as `"0"`). -/
def natDigitsBE (n : ℕ) : List ℕ :=
  if n = 0 then [0] else digitsBEAux n n

/-- `str(n)` for a non-negative integer. -/
def natToChars (n : ℕ) : List Char := (natDigitsBE n).map digitChar

/-- Digit values of a character list, `none` if any character is not a
decimal digit. -/
def digitsOfChars : List Char → Option (List ℕ)
  | [] => some []
  | c :: cs =>
    match digitVal c, digitsOfChars cs with
    | some d, some ds => some (d :: ds)
    | _, _ => none

/-- `int(s)` on a string of decimal digits (no sign). -/
def parseNatChars (l : List Char) : Option ℕ :=
  if l = [] then none
  else (digitsOfChars l).map (fun ds => Nat.ofDigits 10 ds.reverse)

/-- `str(z)` for a Python int. -/
def intToChars (z : ℤ) : List Char :=
  if z < 0 then '-' :: natToChars z.natAbs else natToChars z.toNat

/-- `int(s)`: optional leading minus sign, then decimal digits. -/
def parseIntChars (l : List Char) : Option ℤ :=
  match l with
  | [] => none
  | c :: rest =>
    if c = '-' then (parseNatChars rest).map (fun n => -(n : ℤ))
    else (parseNatChars l).map (fun n => (n : ℤ))

/-- Number of times `p` divides `n` (fuel-based; only its value on the
printable inputs matters, guarded by the `decimal` hypotheses below). -/
def countFactorAux (p : ℕ) : ℕ → ℕ → ℕ
  | 0, _ => 0
  | fuel + 1, n =>
    if 2 ≤ p ∧ 0 < n ∧ n % p = 0 then countFactorAux p fuel (n / p) + 1 else 0

/-- Number of times `p` divides `n`. -/
def countFactor (p n : ℕ) : ℕ := countFactorAux p n n

/-- The number of decimal digits after the point that `str` prints for the
rational `q`: the least `k` with `q * 10 ^ k` integral, when one exists. -/
def decDigitsExp (q : ℚ) : ℕ := max (countFactor 2 q.den) (countFactor 5 q.den)

/-- `q` has a finite decimal expansion (its denominator divides the power of
ten computed by `decDigitsExp`); the printable class of the model. -/
def DecimalRat (q : ℚ) : Prop := q.den ∣ 10 ^ decDigitsExp q

instance : DecidablePred DecimalRat := fun q =>
  inferInstanceAs (Decidable (q.den ∣ 10 ^ decDigitsExp q))

/-- `str(q)` for a non-negative float with a finite decimal expansion:
integer part, `'.'`, then the fractional digits zero-padded on the left to
the full width (Python prints at least one fractional digit). -/
def floatToCharsNN (q : ℚ) : List Char :=
  let k := decDigitsExp q
  let m := q.num.toNat * (10 ^ k / q.den)
  let frac := natToChars (m % 10 ^ k)
  natToChars (m / 10 ^ k) ++ '.' :: (List.replicate (k - frac.length) '0' ++ frac)

/-- `str(q)` for a float with a finite decimal expansion. -/
def floatToChars (q : ℚ) : List Char :=
  if q < 0 then '-' :: floatToCharsNN (-q) else floatToCharsNN q

/-- Split a character list at every occurrence of `sep` (the model of
`str.split`); always returns at least one part. -/
def splitOnChar (sep : Char) : List Char → List (List Char)
  | [] => [[]]
  | c :: cs =>
    match splitOnChar sep cs with
    | [] => [[c]]
    | part :: parts =>
      if c = sep then [] :: part :: parts else (c :: part) :: parts

/-- Digits-or-empty parse: Python `float` treats a missing integer or
fraction part (`".5"`, `"2."`) as `0`. -/
def parseNatOrEmpty (l : List Char) : Option ℕ :=
  if l = [] then some 0 else parseNatChars l

/-- `float(s)` on an unsigned decimal literal: the value of `"a.b"` is
`a + b / 10 ^ |b|`, built with `mkRat` so that it reduces by iota. -/
def parseFloatNN (l : List Char) : Option ℚ :=
  match splitOnChar '.' l with
  | [a] => (parseNatChars a).map (fun n => mkRat n 1)
  | [a, b] =>
    if a = [] ∧ b = [] then none
    else
      match parseNatOrEmpty a, parseNatOrEmpty b with
      | some na, some nb =>
        some (mkRat (na * 10 ^ b.length + nb) (10 ^ b.length))
      | _, _ => none
  | _ => none

/-- `float(s)`: optional leading minus sign, then an unsigned decimal
literal. -/
def parseFloatChars (l : List Char) : Option ℚ :=
  match l with
  | [] => none
  | c :: rest =>
    if c = '-' then (parseFloatNN rest).map Neg.neg
    else parseFloatNN (c :: rest)

/-! ## The pipe-delimited catalog format (`POSApp.save_products` /
`POSApp.load_data`, TXT branch, `main.py`) -/

/-- A whitespace character for the model of `str.strip`. -/
def isSpaceChar (c : Char) : Bool :=
  c = ' ' || c = '\t' || c = '\n' || c = '\r'

/-- `str.strip()`: drop whitespace from both ends. -/
def stripChars (l : List Char) : List Char :=
  ((l.dropWhile isSpaceChar).reverse.dropWhile isSpaceChar).reverse

/-- The f-string of `save_products` for one product dict:
`id|name|category|type|price|stock|unit|description` (without the trailing
newline, which delimits the line). -/
def saveTxtLine (p : Item) : List Char :=
  p.id.data ++ '|' :: (p.name.data ++ '|' :: (p.category.data ++ '|' ::
    (p.type.data ++ '|' :: (floatToChars p.price ++ '|' ::
    (intToChars p.stock ++ '|' :: (p.unit.data ++ '|' ::
    p.description.data))))))

/-- Outcome of one iteration of the TXT line loop of `load_data`: a parsed
product dict, a silently ignored line, or a `ValueError` escaping from
`float`/`int` (which aborts the whole loop). -/
inductive TxtParse
  | ok (item : Item)
  | skip
  | err
deriving DecidableEq, Repr

/-- The product dict built by the legacy 4-field branch of `load_data`. -/
def txtLegacyItem (i n : List Char) (price : ℚ) (stock : ℤ) : Item :=
  { id := String.mk i, name := String.mk n, category := "",
    category_main := "", category_sub := "", type := "product",
    price := price, stock := stock, unit := "pcs", description := "" }

/-- The legacy 4-field branch of the TXT loop: `float`/`int` conversion then
the dict with defaulted fields. -/
def parseTxtLegacy (i n pr stk : List Char) : TxtParse :=
  match parseFloatChars pr, parseIntChars stk with
  | some price, some stock => .ok (txtLegacyItem i n price stock)
  | _, _ => .err

/-- The product dict built by the extended 8-field branch of `load_data`:
`category_main` is set to the category column and `category_sub` to `''`. -/
def txtFieldsItem (i n cat ty : List Char) (price : ℚ) (stock : ℤ)
    (u d : List Char) : Item :=
  { id := String.mk i, name := String.mk n, category := String.mk cat,
    category_main := String.mk cat, category_sub := "",
    type := String.mk ty, price := price, stock := stock,
    unit := String.mk u, description := String.mk d }

/-- The extended 8-field branch of the TXT loop. -/
def parseTxtFields (i n cat ty pr stk u d : List Char) : TxtParse :=
  match parseFloatChars pr, parseIntChars stk with
  | some price, some stock => .ok (txtFieldsItem i n cat ty price stock u d)
  | _, _ => .err

/-- One iteration of the TXT line loop of `load_data`: strip, skip blank
lines, split on `'|'`, then dispatch on the field count (exactly 4 = legacy
format, at least 8 = extended format, anything else silently ignored). -/
def parseTxtLine (line : List Char) : TxtParse :=
  if stripChars line = [] then .skip
  else
    match splitOnChar '|' (stripChars line) with
    | [i, n, pr, stk] => parseTxtLegacy i n pr stk
    | i :: n :: cat :: ty :: pr :: stk :: u :: d :: _ =>
      parseTxtFields i n cat ty pr stk u d
    | _ => .skip

/-- The TXT line loop of `load_data`: successfully parsed dicts are appended
to `self.products`; an exception aborts the loop, leaving the dicts appended
so far in place, and is reported as an error dialog (the `Bool`). -/
def loadTxtGo : List (List Char) → List Item → List Item × Bool
  | [], acc => (acc, false)
  | line :: rest, acc =>
    match parseTxtLine line with
    | .ok item => loadTxtGo rest (acc ++ [item])
    | .skip => loadTxtGo rest acc
    | .err => (acc, true)

/-- `POSApp.load_data` on a TXT file: `self.products.clear()` first (the
pre-load list `prior` is discarded), then the line loop; the `Bool` records
whether the error dialog was shown. -/
def load_data_txt (prior : List Item) (file : List (List Char)) :
    List Item × Bool :=
  loadTxtGo file []

/-- No leading whitespace (`str.strip` removes nothing at the front). -/
def NoLeadSpace (l : List Char) : Prop := l.dropWhile isSpaceChar = l

/-- No trailing whitespace (`str.strip` removes nothing at the back). -/
def NoTrailSpace (l : List Char) : Prop :=
  l.reverse.dropWhile isSpaceChar = l.reverse

/-- A string field survives the pipe format: it contains no field separator
and no line break. -/
def TxtFieldOk (s : String) : Prop :=
  ∀ c ∈ s.data, c ≠ '|' ∧ c ≠ '\n' ∧ c ≠ '\r'

/-- Well-formedness of an item for the extended pipe format: delimiter-free
string fields, no whitespace at the two stripped line ends, a price with a
finite decimal expansion, and the split category fields in the state the
format can represent (`category_main` mirroring `category`, no
`category_sub`). -/
def TxtItemWF (p : Item) : Prop :=
  TxtFieldOk p.id ∧ TxtFieldOk p.name ∧ TxtFieldOk p.category ∧
    TxtFieldOk p.type ∧ TxtFieldOk p.unit ∧ TxtFieldOk p.description ∧
    NoLeadSpace p.id.data ∧ NoTrailSpace p.description.data ∧
    DecimalRat p.price ∧ p.category_main = p.category ∧ p.category_sub = ""

instance (l : List Char) : Decidable (NoLeadSpace l) :=
  inferInstanceAs (Decidable (_ = _))

instance (l : List Char) : Decidable (NoTrailSpace l) :=
  inferInstanceAs (Decidable (_ = _))

instance (s : String) : Decidable (TxtFieldOk s) :=
  inferInstanceAs (Decidable (∀ c ∈ s.data, _))

instance (p : Item) : Decidable (TxtItemWF p) :=
  inferInstanceAs (Decidable (_ ∧ _))

/-! ## The JSON catalog format (`POSApp.save_products` / `POSApp.load_data`,
JSON branch, `main.py`)

`json.dump`/`json.load` themselves round-trip the dict structure; the
repository's logic is the key/defaulting layer, which is what is modelled:
a JSON object is a record of optional fields.  The generated
`f"prod_{uuid.uuid4().hex[:8]}"` fallback id is modelled by the `fresh`
parameter. -/

/-- A JSON catalog object: each key optionally present. -/
structure JsonItem where
  id : Option String
  product_id : Option String
  name : Option String
  category : Option String
  category_main : Option String
  category_sub : Option String
  type : Option String
  price : Option ℚ
  stock : Option ℤ
  unit : Option String
  description : Option String
deriving DecidableEq, Repr

/-- Python truthiness of `dict.get(key)` for a string value: an absent key
gives `None` and an empty string is falsy — both fall through `or`. -/
def strTruthy : Option String → Option String
  | none => none
  | some s => if s = "" then none else some s

/-- `item.get('id') or item.get('product_id') or f"prod_{...}"`. -/
def pyIdChain (id product_id : Option String) (fresh : String) : String :=
  match strTruthy id with
  | some s => s
  | none =>
    match strTruthy product_id with
    | some s => s
    | none => "prod_" ++ fresh

/-- The JSON branch of `load_data` for one object. -/
def load_data_json_item (fresh : String) (j : JsonItem) : Item :=
  let category := j.category.getD ""
  { id := pyIdChain j.id j.product_id fresh,
    name := j.name.getD "Unknown",
    category := category,
    category_main := j.category_main.getD category,
    category_sub := j.category_sub.getD "",
    type := j.type.getD "product",
    price := j.price.getD 0,
    stock := j.stock.getD 0,
    unit := j.unit.getD "pcs",
    description := j.description.getD "" }

/-- The JSON branch of `save_products` for one product dict: every one of the
ten keys of the in-memory dict is written (there is no `product_id` key). -/
def save_products_json_item (p : Item) : JsonItem :=
  { id := some p.id, product_id := none, name := some p.name,
    category := some p.category, category_main := some p.category_main,
    category_sub := some p.category_sub, type := some p.type,
    price := some p.price, stock := some p.stock, unit := some p.unit,
    description := some p.description }

/-- `save_products` on a `.json` path. -/
def save_products_json (ps : List Item) : List JsonItem :=
  ps.map save_products_json_item

/-- `load_data` on a `.json` path. -/
def load_data_json (fresh : String) (js : List JsonItem) : List Item :=
  js.map (load_data_json_item fresh)

/-! ## The CSV catalog format (`POSApp.save_products` / `POSApp.load_data`,
CSV branch, `main.py`)

The `csv` module round-trips arbitrary cell strings via quoting; the
repository's logic is the header/defaulting/`str`-conversion layer.  A row is
a record of optional cell strings (`csv.DictWriter` applies `str` to each
value; `csv.DictReader` yields strings). -/

/-- A CSV row keyed by header name: each column optionally present. -/
structure CsvRow where
  id : Option String
  product_id : Option String
  name : Option String
  category : Option String
  category_main : Option String
  category_sub : Option String
  type : Option String
  price : Option String
  stock : Option String
  unit : Option String
  description : Option String
deriving DecidableEq, Repr

/-- The CSV branch of `save_products` for one product dict (fieldnames
`id,name,category,category_main,category_sub,type,price,stock,unit,description`;
numeric values pass through `str`). -/
def save_products_csv_row (p : Item) : CsvRow :=
  { id := some p.id, product_id := none, name := some p.name,
    category := some p.category, category_main := some p.category_main,
    category_sub := some p.category_sub, type := some p.type,
    price := some (String.mk (floatToChars p.price)),
    stock := some (String.mk (intToChars p.stock)), unit := some p.unit,
    description := some p.description }

/-- The CSV branch of `load_data` for one row; `float`/`int` on a
non-numeric cell raises, aborting the load. -/
def load_data_csv_row (fresh : String) (r : CsvRow) : Option Item :=
  let category := r.category.getD ""
  let price? := match r.price with
    | none => some (0 : ℚ)
    | some s => parseFloatChars s.data
  let stock? := match r.stock with
    | none => some (0 : ℤ)
    | some s => parseIntChars s.data
  match price?, stock? with
  | some price, some stock =>
    some { id := pyIdChain r.id r.product_id fresh,
           name := r.name.getD "Unknown",
           category := category,
           category_main := r.category_main.getD category,
           category_sub := r.category_sub.getD "",
           type := r.type.getD "product",
           price := price, stock := stock,
           unit := r.unit.getD "pcs",
           description := r.description.getD "" }
  | _, _ => none

/-- `save_products` on a `.csv` path. -/
def save_products_csv (ps : List Item) : List CsvRow :=
  ps.map save_products_csv_row

/-- `load_data` on a `.csv` path (success path: every row converts). -/
def load_data_csv (fresh : String) : List CsvRow → Option (List Item)
  | [] => some []
  | r :: rs =>
    match load_data_csv_row fresh r, load_data_csv fresh rs with
    | some i, some is => some (i :: is)
    | _, _ => none

/-! ## Helper lemmas: stock decrement loop -/

/-- The quantity of the (first) cart line referencing `pid`, 0 if none. -/
def cartQty (cart : List CartLine) (pid : String) : ℕ :=
  match cart.find? (fun l => l.id == pid) with
  | some l => l.quantity
  | none => 0

/-- The per-cart-line stock update as a pointwise function. -/
def stockDecOne (ci : CartLine) (p : Item) : Item :=
  if p.id = ci.id ∧ p.type = "product" then
    { p with stock := p.stock - (ci.quantity : ℤ) }
  else p

lemma stockDecOne_id (ci : CartLine) (p : Item) : (stockDecOne ci p).id = p.id := by
  unfold stockDecOne
  by_cases h : p.id = ci.id ∧ p.type = "product" <;> simp [h]

lemma stockDecOne_of_ne (ci : CartLine) (p : Item) (h : p.id ≠ ci.id) :
    stockDecOne ci p = p := by
  unfold stockDecOne
  rw [if_neg (fun hc => h hc.1)]

/-- A scan that finds no candidate changes nothing. -/
lemma map_stockDecOne_of_not_mem (ci : CartLine) (ps : List Item)
    (h : ∀ q ∈ ps, q.id ≠ ci.id) : ps.map (stockDecOne ci) = ps := by
  induction ps with
  | nil => rfl
  | cons p ps ih =>
    rw [List.map_cons, stockDecOne_of_ne ci p (h p (by simp)),
      ih (fun q hq => h q (by simp [hq]))]

/-- With distinct product ids, the first-match-then-break inner loop of
`finalize_sale` coincides with the pointwise update of every id match. -/
lemma updateStockOne_eq_map (ci : CartLine) (ps : List Item)
    (h : (ps.map Item.id).Nodup) :
    updateStockOne ci ps = ps.map (stockDecOne ci) := by
  induction ps with
  | nil => rfl
  | cons p ps ih =>
    rw [List.map_cons] at h
    have hp : p.id ∉ ps.map Item.id := (List.nodup_cons.mp h).1
    have hps : (ps.map Item.id).Nodup := (List.nodup_cons.mp h).2
    by_cases hc : p.id = ci.id ∧ p.type = "product"
    · have hnm : ∀ q ∈ ps, q.id ≠ ci.id := by
        intro q hq hqe
        apply hp
        rw [hc.1, ← hqe]
        exact List.mem_map_of_mem Item.id hq
      have hpos : stockDecOne ci p = { p with stock := p.stock - (ci.quantity : ℤ) } := by
        unfold stockDecOne
        rw [if_pos hc]
      unfold updateStockOne
      rw [if_pos hc, List.map_cons, hpos, map_stockDecOne_of_not_mem ci ps hnm]
    · unfold updateStockOne
      rw [if_neg hc, List.map_cons, ih hps]
      congr 1
      unfold stockDecOne
      rw [if_neg hc]

/-- The pointwise update preserves the id sequence. -/
lemma map_id_map_stockDecOne (ci : CartLine) (ps : List Item) :
    (ps.map (stockDecOne ci)).map Item.id = ps.map Item.id := by
  rw [List.map_map]
  exact List.map_congr_left (fun p _ => stockDecOne_id ci p)

/-- The cumulative stock update of a whole sale as a pointwise function:
a tangible product in the cart loses its cart line quantity, everything
else — non-product kinds and products not in the cart — is unchanged in
every field. -/
def stockDecAll (cart : List CartLine) (p : Item) : Item :=
  if p.type = "product" ∧ p.id ∈ cart.map CartLine.id then
    { p with stock := p.stock - (cartQty cart p.id : ℤ) }
  else p

lemma stockDecAll_pointwise (ci : CartLine) (rest : List CartLine)
    (hci : ci.id ∉ rest.map CartLine.id) (p : Item) :
    stockDecAll rest (stockDecOne ci p) = stockDecAll (ci :: rest) p := by
  by_cases h1 : p.id = ci.id
  · by_cases h2 : p.type = "product"
    · have hdec : stockDecOne ci p = { p with stock := p.stock - (ci.quantity : ℤ) } := by
        unfold stockDecOne
        rw [if_pos ⟨h1, h2⟩]
      have hno : ¬ (({ p with stock := p.stock - (ci.quantity : ℤ) } : Item).type = "product" ∧
          ({ p with stock := p.stock - (ci.quantity : ℤ) } : Item).id ∈
            rest.map CartLine.id) := by
        intro hcon
        apply hci
        have : p.id ∈ rest.map CartLine.id := hcon.2
        rw [h1] at this
        exact this
      have hyes : p.type = "product" ∧ p.id ∈ (ci :: rest).map CartLine.id := by
        refine ⟨h2, ?_⟩
        rw [List.map_cons, h1]
        exact List.mem_cons_self _ _
      have hq : cartQty (ci :: rest) p.id = ci.quantity := by
        unfold cartQty
        rw [List.find?_cons_of_pos _ (by simp [h1])]
      rw [hdec]
      unfold stockDecAll
      rw [if_neg hno, if_pos hyes, hq]
    · have hdec : stockDecOne ci p = p := by
        unfold stockDecOne
        rw [if_neg (fun hc : p.id = ci.id ∧ p.type = "product" => h2 hc.2)]
      rw [hdec]
      unfold stockDecAll
      rw [if_neg (fun hc : p.type = "product" ∧ p.id ∈ rest.map CartLine.id => h2 hc.1),
        if_neg (fun hc : p.type = "product" ∧ p.id ∈ (ci :: rest).map CartLine.id => h2 hc.1)]
  · rw [stockDecOne_of_ne ci p h1]
    unfold stockDecAll
    have hmem : (p.id ∈ (ci :: rest).map CartLine.id) ↔
        (p.id ∈ rest.map CartLine.id) := by
      rw [List.map_cons, List.mem_cons]
      exact ⟨fun h => h.resolve_left h1, fun h => Or.inr h⟩
    have hq : cartQty (ci :: rest) p.id = cartQty rest p.id := by
      unfold cartQty
      rw [List.find?_cons_of_neg _
        (by simp only [beq_iff_eq]; exact fun hc => h1 hc.symm)]
    by_cases h3 : p.type = "product" ∧ p.id ∈ rest.map CartLine.id
    · rw [if_pos h3, if_pos ⟨h3.1, hmem.mpr h3.2⟩, hq]
    · rw [if_neg h3,
        if_neg (fun hc : p.type = "product" ∧ p.id ∈ (ci :: rest).map CartLine.id =>
          h3 ⟨hc.1, hmem.mp hc.2⟩)]

/-- With distinct product ids and distinct cart line ids, the double loop of
`finalize_sale` step 1 is the pointwise map of `stockDecAll`. -/
lemma finalizeUpdateStock_eq_map (cart : List CartLine) (ps : List Item)
    (hpn : (ps.map Item.id).Nodup) (hcn : (cart.map CartLine.id).Nodup) :
    finalizeUpdateStock cart ps = ps.map (stockDecAll cart) := by
  induction cart generalizing ps with
  | nil =>
    show ps = ps.map (stockDecAll [])
    have : ∀ p ∈ ps, stockDecAll [] p = p := by
      intro p _
      unfold stockDecAll
      rw [if_neg (by simp)]
    rw [List.map_congr_left this]
    simp
  | cons ci rest ih =>
    rw [List.map_cons] at hcn
    have hci : ci.id ∉ rest.map CartLine.id := (List.nodup_cons.mp hcn).1
    have hrest : (rest.map CartLine.id).Nodup := (List.nodup_cons.mp hcn).2
    show finalizeUpdateStock rest (updateStockOne ci ps) = _
    rw [updateStockOne_eq_map ci ps hpn]
    rw [ih (ps.map (stockDecOne ci)) (by rw [map_id_map_stockDecOne]; exact hpn) hrest]
    rw [List.map_map]
    exact List.map_congr_left (fun p _ => stockDecAll_pointwise ci rest hci p)

/-- `find?` under distinct ids locates exactly the member line. -/
lemma find?_cart_of_nodup (cart : List CartLine) (ci : CartLine)
    (hmem : ci ∈ cart) (hcn : (cart.map CartLine.id).Nodup) :
    cart.find? (fun l => l.id == ci.id) = some ci := by
  induction cart with
  | nil => cases hmem
  | cons l rest ih =>
    rw [List.map_cons] at hcn
    have hl : l.id ∉ rest.map CartLine.id := (List.nodup_cons.mp hcn).1
    have hrest : (rest.map CartLine.id).Nodup := (List.nodup_cons.mp hcn).2
    by_cases he : l.id = ci.id
    · rcases List.mem_cons.mp hmem with rfl | hmem2
      · exact List.find?_cons_of_pos _ (by simp)
      · exact absurd (he ▸ List.mem_map_of_mem CartLine.id hmem2) hl
    · rcases List.mem_cons.mp hmem with rfl | hmem2
      · exact absurd rfl he
      · rw [List.find?_cons_of_neg _ (by simp [he])]
        exact ih hmem2 hrest

/-! ## Helper lemmas: cart search loop -/

/-- `incrFirst` succeeds exactly when some cart line carries the id. -/
lemma incrFirst_eq_none_iff (pid : String) (cart : List CartLine) :
    incrFirst pid cart = none ↔ pid ∉ cart.map CartLine.id := by
  induction cart with
  | nil => simp [incrFirst]
  | cons line rest ih =>
    by_cases h : line.id = pid
    · simp [incrFirst, h]
    · simp only [incrFirst, if_neg h, Option.map_eq_none', ih, List.map_cons,
        List.mem_cons]
      constructor
      · intro hn hor
        rcases hor with hor | hor
        · exact h hor.symm
        · exact hn hor
      · intro hn hm
        exact hn (Or.inr hm)

/-- Incrementing an existing line preserves the id sequence. -/
lemma incrFirst_map_id (pid : String) (cart cart2 : List CartLine)
    (h : incrFirst pid cart = some cart2) :
    cart2.map CartLine.id = cart.map CartLine.id := by
  induction cart generalizing cart2 with
  | nil => simp [incrFirst] at h
  | cons line rest ih =>
    by_cases hl : line.id = pid
    · simp only [incrFirst, if_pos hl] at h
      cases h
      simp
    · simp only [incrFirst, if_neg hl, Option.map_eq_some'] at h
      obtain ⟨r, hr, rfl⟩ := h
      simp [ih r hr]

/-- Incrementing an existing line preserves the number of lines. -/
lemma incrFirst_length (pid : String) (cart cart2 : List CartLine)
    (h : incrFirst pid cart = some cart2) :
    cart2.length = cart.length := by
  have := incrFirst_map_id pid cart cart2 h
  simpa using congrArg List.length this

/-! ## Claim theorems -/

/-- C1.  With `cashTendered < total`, the engine checkout returns `None`
and leaves the whole manager state (cart, products and their stock, sales
ledger) untouched, and the GUI payment dialog rejects without invoking the
finalize callback, leaving the application state (cart, catalog stock,
`sales.txt` ledger) untouched. -/
theorem checkout_insufficient_funds_no_effect (m : POSManager) (cash : ℚ)
    (h : cash < m.get_cart_total) (st : AppState) (total tendered : ℚ)
    (h2 : tendered < total) (sale_id timestamp : String) :
    m.checkout cash = (none, m) ∧
      PaymentDialog.process st total tendered sale_id timestamp = st := by
  constructor
  · simp [POSManager.checkout, h]
  · simp [PaymentDialog.process, h2]

/-- Witness for C1 at a concrete state: one item of price 5, quantity 1,
cash tendered 3. -/
theorem checkout_insufficient_funds_no_effect_witness :
    POSManager.checkout
        ⟨[], [⟨⟨"p1", "A", "", 5, 3, "", "product", "pcs"⟩, 1⟩], []⟩ 3 =
      (none, ⟨[], [⟨⟨"p1", "A", "", 5, 3, "", "product", "pcs"⟩, 1⟩], []⟩) ∧
      PaymentDialog.process ⟨[], [], []⟩ (27/5) 5 "s" "t" = ⟨[], [], []⟩ := by
  exact checkout_insufficient_funds_no_effect
    ⟨[], [⟨⟨"p1", "A", "", 5, 3, "", "product", "pcs"⟩, 1⟩], []⟩ 3
    (by norm_num [POSManager.get_cart_total])
    ⟨[], [], []⟩ (27/5) 5 (by norm_num) "s" "t"

/-- C2.  For a non-empty cart the displayed totals satisfy
`tax = subtotal * taxRate` and `total = subtotal + subtotal * taxRate`
exactly (no intermediate rounding), and the `total_amount` computed by the
checkout path (`subtotal * (1 + taxRate)`) is the same number as the total
the totals path displays. -/
theorem totals_consistent (cart : List CartLine) (tax_rate : ℚ)
    (h : cart ≠ []) :
    update_totals_tax cart tax_rate = update_totals_subtotal cart * tax_rate ∧
      update_totals_total cart tax_rate =
        update_totals_subtotal cart + update_totals_subtotal cart * tax_rate ∧
      checkout_total_amount cart tax_rate = update_totals_total cart tax_rate := by
  refine ⟨rfl, rfl, ?_⟩
  unfold checkout_total_amount update_totals_total update_totals_tax
    update_totals_subtotal
  ring

/-- Witness for C2: one cart line of price 5/2 and quantity 2 at the
configured 8% tax rate gives subtotal 5, tax 2/5, total 27/5 on both
paths. -/
theorem totals_consistent_witness :
    update_totals_tax [⟨"p1", "A", "product", "pcs", 5/2, 2⟩] (8/100) =
        update_totals_subtotal [⟨"p1", "A", "product", "pcs", 5/2, 2⟩] * (8/100) ∧
      update_totals_total [⟨"p1", "A", "product", "pcs", 5/2, 2⟩] (8/100) =
        update_totals_subtotal [⟨"p1", "A", "product", "pcs", 5/2, 2⟩] +
          update_totals_subtotal [⟨"p1", "A", "product", "pcs", 5/2, 2⟩] * (8/100) ∧
      checkout_total_amount [⟨"p1", "A", "product", "pcs", 5/2, 2⟩] (8/100) =
        update_totals_total [⟨"p1", "A", "product", "pcs", 5/2, 2⟩] (8/100) :=
  totals_consistent [⟨"p1", "A", "product", "pcs", 5/2, 2⟩] (8/100) (by simp)

/-- C9.  The engine checkout has no empty-cart guard: with an empty cart and
any `cash_tendered ≥ 0` it succeeds, returning a transaction with no items,
total 0 and change equal to the cash tendered, and appends it to `sales`. -/
theorem checkout_empty_cart_succeeds (m : POSManager) (hcart : m.cart = [])
    (cash : ℚ) (hcash : 0 ≤ cash) :
    ∃ t : Transaction,
      m.checkout cash = (some t, { m with cart := [], sales := m.sales ++ [t] }) ∧
        t.items = [] ∧ t.total = 0 ∧ t.change = cash ∧ t.cash_tendered = cash := by
  have htotal : m.get_cart_total = 0 := by
    simp [POSManager.get_cart_total, hcart]
  refine ⟨⟨[], 0, cash, cash⟩, ?_, rfl, rfl, rfl, rfl⟩
  simp only [POSManager.checkout, POSManager.clear_cart, htotal, hcart, sub_zero]
  rw [if_neg (not_lt.mpr hcash)]

/-- Witness for C9: an empty-cart manager and cash 7. -/
theorem checkout_empty_cart_succeeds_witness :
    ∃ t : Transaction,
      POSManager.checkout ⟨[], [], []⟩ 7 =
          (some t, { products := [], cart := [], sales := [] ++ [t] }) ∧
        t.items = [] ∧ t.total = 0 ∧ t.change = 7 ∧ t.cash_tendered = 7 :=
  checkout_empty_cart_succeeds ⟨[], [], []⟩ rfl 7 (by norm_num)

/-- C3.  `add_to_cart` keeps at most one cart line per item id: on a cart
with distinct line ids the result again has distinct line ids; when the id
is already present the operation increments that line in place (same length,
same id sequence, no appended line); and adding the same addable item twice
to an empty cart yields exactly one line of quantity 2. -/
theorem add_to_cart_one_line_per_id (product : Item) (cart : List CartLine) :
    ((cart.map CartLine.id).Nodup → ∀ cart2,
      add_to_cart product cart = .added cart2 → (cart2.map CartLine.id).Nodup) ∧
      (product.id ∈ cart.map CartLine.id → ∀ cart2,
        add_to_cart product cart = .added cart2 →
          cart2.length = cart.length ∧
            cart2.map CartLine.id = cart.map CartLine.id) ∧
      (¬ (product.type = "product" ∧ product.stock ≤ 0) →
        add_to_cart product [] = .added [newCartLine product] ∧
          add_to_cart product [newCartLine product] =
            .added [{ newCartLine product with quantity := 2 }]) := by
  refine ⟨?_, ?_, ?_⟩
  · intro hnd cart2 hadd
    unfold add_to_cart at hadd
    cases hinc : incrFirst product.id cart with
    | some c => rw [hinc] at hadd; cases hadd
                rw [incrFirst_map_id _ _ _ hinc]; exact hnd
    | none =>
      rw [hinc] at hadd
      by_cases hguard : product.type = "product" ∧ product.stock ≤ 0
      · rw [if_pos hguard] at hadd; cases hadd
      · rw [if_neg hguard] at hadd; cases hadd
        have hnotmem := (incrFirst_eq_none_iff product.id cart).mp hinc
        rw [List.map_append]
        refine List.Nodup.append hnd (List.nodup_singleton _) ?_
        intro a ha hb
        simp only [newCartLine, List.map_cons, List.map_nil,
          List.mem_singleton] at hb
        exact hnotmem (hb ▸ ha)
  · intro hmem cart2 hadd
    obtain ⟨c, hinc⟩ : ∃ c, incrFirst product.id cart = some c := by
      cases hi : incrFirst product.id cart with
      | none =>
        exact absurd hmem ((incrFirst_eq_none_iff product.id cart).mp hi)
      | some c => exact ⟨c, rfl⟩
    unfold add_to_cart at hadd
    rw [hinc] at hadd
    cases hadd
    exact ⟨incrFirst_length _ _ _ hinc, incrFirst_map_id _ _ _ hinc⟩
  · intro hok
    constructor
    · show (match incrFirst product.id [] with
        | some cart2 => AddResult.added cart2
        | none => if product.type = "product" ∧ product.stock ≤ 0
            then AddResult.outOfStock
            else AddResult.added ([] ++ [newCartLine product])) = _
      rw [show incrFirst product.id [] = none from rfl]
      rw [if_neg hok]
      rfl
    · show (match incrFirst product.id [newCartLine product] with
        | some cart2 => AddResult.added cart2
        | none => if product.type = "product" ∧ product.stock ≤ 0
            then AddResult.outOfStock
            else AddResult.added ([newCartLine product] ++ [newCartLine product])) = _
      rw [show incrFirst product.id [newCartLine product] =
        some [{ newCartLine product with quantity := 2 }] by
          simp [incrFirst, newCartLine]]

/-- Witness for C3: a one-line cart with a distinct id, and the concrete
double add of an in-stock product. -/
theorem add_to_cart_one_line_per_id_witness :
    (([⟨"q", "B", "product", "pcs", 1, 1⟩].map CartLine.id).Nodup →
      ∀ cart2, add_to_cart ⟨"p", "A", "", "", "", "product", 2, 5, "pcs", ""⟩
          [⟨"q", "B", "product", "pcs", 1, 1⟩] = .added cart2 →
        (cart2.map CartLine.id).Nodup) ∧
      (("p" : String) ∈ [⟨"q", "B", "product", "pcs", 1, 1⟩].map CartLine.id →
        ∀ cart2, add_to_cart ⟨"p", "A", "", "", "", "product", 2, 5, "pcs", ""⟩
            [⟨"q", "B", "product", "pcs", 1, 1⟩] = .added cart2 →
          cart2.length = 1 ∧
            cart2.map CartLine.id = [⟨"q", "B", "product", "pcs", 1, 1⟩].map CartLine.id) ∧
      (¬ (("product" : String) = "product" ∧ (5 : ℤ) ≤ 0) →
        add_to_cart ⟨"p", "A", "", "", "", "product", 2, 5, "pcs", ""⟩ [] =
            .added [newCartLine ⟨"p", "A", "", "", "", "product", 2, 5, "pcs", ""⟩] ∧
          add_to_cart ⟨"p", "A", "", "", "", "product", 2, 5, "pcs", ""⟩
              [newCartLine ⟨"p", "A", "", "", "", "product", 2, 5, "pcs", ""⟩] =
            .added [{ newCartLine ⟨"p", "A", "", "", "", "product", 2, 5, "pcs", ""⟩ with
              quantity := 2 }]) := by
  have h := add_to_cart_one_line_per_id
    ⟨"p", "A", "", "", "", "product", 2, 5, "pcs", ""⟩
    [⟨"q", "B", "product", "pcs", 1, 1⟩]
  exact ⟨h.1, h.2.1, fun hg => (add_to_cart_one_line_per_id
    ⟨"p", "A", "", "", "", "product", 2, 5, "pcs", ""⟩ []).2.2 hg⟩

/-- C4.  A tangible product with `stock <= 0` whose id is not in the cart is
rejected with the Out-of-Stock path (cart unchanged); but when the id is
already in the cart the increment branch runs before the stock guard, so the
add succeeds with the very same result whatever the stock value is. -/
theorem add_to_cart_stock_guard (product : Item) (cart : List CartLine) :
    (product.type = "product" → product.stock ≤ 0 →
      product.id ∉ cart.map CartLine.id →
        add_to_cart product cart = .outOfStock) ∧
      (product.id ∈ cart.map CartLine.id →
        ∃ cart2, incrFirst product.id cart = some cart2 ∧
          ∀ s : ℤ, add_to_cart { product with stock := s } cart = .added cart2) := by
  constructor
  · intro hty hstock hmem
    have hinc : incrFirst product.id cart = none :=
      (incrFirst_eq_none_iff product.id cart).mpr hmem
    unfold add_to_cart
    rw [hinc, if_pos ⟨hty, hstock⟩]
  · intro hmem
    obtain ⟨c, hinc⟩ : ∃ c, incrFirst product.id cart = some c := by
      cases hi : incrFirst product.id cart with
      | none =>
        exact absurd hmem ((incrFirst_eq_none_iff product.id cart).mp hi)
      | some c => exact ⟨c, rfl⟩
    refine ⟨c, hinc, fun s => ?_⟩
    have hinc2 : incrFirst ({ product with stock := s } : Item).id cart = some c :=
      hinc
    unfold add_to_cart
    rw [hinc2]

/-- Witness for C4: a stock-0 product is rejected on a fresh add, yet the
same product already in the cart is incremented even with stock -5. -/
theorem add_to_cart_stock_guard_witness :
    add_to_cart ⟨"p", "A", "", "", "", "product", 2, 0, "pcs", ""⟩
        [⟨"q", "B", "product", "pcs", 1, 1⟩] = .outOfStock ∧
      add_to_cart ⟨"p", "A", "", "", "", "product", 2, -5, "pcs", ""⟩
          [⟨"p", "A", "product", "pcs", 2, 1⟩] =
        .added [⟨"p", "A", "product", "pcs", 2, 2⟩] := by
  constructor
  · exact (add_to_cart_stock_guard
      ⟨"p", "A", "", "", "", "product", 2, 0, "pcs", ""⟩
      [⟨"q", "B", "product", "pcs", 1, 1⟩]).1 rfl (by norm_num) (by decide)
  · obtain ⟨c2, hc2, hall⟩ := (add_to_cart_stock_guard
      ⟨"p", "A", "", "", "", "product", 2, 0, "pcs", ""⟩
      [⟨"p", "A", "product", "pcs", 2, 1⟩]).2 (by decide)
    have hc2' : c2 = [⟨"p", "A", "product", "pcs", 2, 2⟩] := by
      have : incrFirst "p" [⟨"p", "A", "product", "pcs", 2, 1⟩] =
          some [⟨"p", "A", "product", "pcs", 2, 2⟩] := by decide
      rw [this] at hc2
      exact (Option.some.inj hc2).symm
    have h5 := hall (-5)
    rw [hc2'] at h5
    exact h5

/-- C8.  After a successful checkout (`finalize_sale`), the catalog is the
pointwise image of `stockDecAll`: every tangible product in the cart has its
stock decremented by exactly its cart line quantity, and every other item —
any non-product kind, and any product absent from the cart — is returned
unchanged in every field. -/
theorem finalize_sale_stock_frame (st : AppState) (total tendered : ℚ)
    (sale_id timestamp : String)
    (hpn : (st.products.map Item.id).Nodup)
    (hcn : (st.cart.map CartLine.id).Nodup) :
    (finalize_sale st total tendered sale_id timestamp).products =
      st.products.map (stockDecAll st.cart) :=
  finalizeUpdateStock_eq_map st.cart st.products hpn hcn

/-- Witness for C8: a catalog with a purchased product, an untouched
product, and a service sharing the cart id; only the first loses stock. -/
theorem finalize_sale_stock_frame_witness :
    (finalize_sale
        ⟨[⟨"p1", "A", "", "", "", "product", 2, 10, "pcs", ""⟩,
          ⟨"p2", "B", "", "", "", "product", 3, 4, "pcs", ""⟩,
          ⟨"s1", "C", "", "", "", "service", 5, 0, "", ""⟩],
         [⟨"p1", "A", "product", "pcs", 2, 2⟩, ⟨"s1", "C", "service", "", 5, 1⟩],
         []⟩ (27/5) 6 "sid" "ts").products =
      [⟨"p1", "A", "", "", "", "product", 2, 10, "pcs", ""⟩,
        ⟨"p2", "B", "", "", "", "product", 3, 4, "pcs", ""⟩,
        ⟨"s1", "C", "", "", "", "service", 5, 0, "", ""⟩].map
        (stockDecAll
          [⟨"p1", "A", "product", "pcs", 2, 2⟩, ⟨"s1", "C", "service", "", 5, 1⟩]) :=
  finalize_sale_stock_frame
    ⟨[⟨"p1", "A", "", "", "", "product", 2, 10, "pcs", ""⟩,
      ⟨"p2", "B", "", "", "", "product", 3, 4, "pcs", ""⟩,
      ⟨"s1", "C", "", "", "", "service", 5, 0, "", ""⟩],
     [⟨"p1", "A", "product", "pcs", 2, 2⟩, ⟨"s1", "C", "service", "", 5, 1⟩],
     []⟩ (27/5) 6 "sid" "ts" (by decide) (by decide)

/-- C10.  The stock decrement of a successful sale is exact integer
subtraction with no lower bound: the purchased product's stored stock
becomes `stock - quantity`, which is negative whenever the quantity sold
exceeds the available stock — nothing clamps or restores it to 0. -/
theorem finalize_sale_stock_no_lower_bound (st : AppState)
    (total tendered : ℚ) (sale_id timestamp : String)
    (hpn : (st.products.map Item.id).Nodup)
    (hcn : (st.cart.map CartLine.id).Nodup)
    (p : Item) (hp : p ∈ st.products) (hty : p.type = "product")
    (ci : CartLine) (hci : ci ∈ st.cart) (hid : ci.id = p.id) :
    ({ p with stock := p.stock - (ci.quantity : ℤ) } : Item) ∈
        (finalize_sale st total tendered sale_id timestamp).products ∧
      (p.stock < (ci.quantity : ℤ) →
        p.stock - (ci.quantity : ℤ) < 0) := by
  constructor
  · have hprods : (finalize_sale st total tendered sale_id timestamp).products =
        st.products.map (stockDecAll st.cart) :=
      finalizeUpdateStock_eq_map st.cart st.products hpn hcn
    rw [hprods]
    have hmem : p.id ∈ st.cart.map CartLine.id := by
      rw [← hid]
      exact List.mem_map_of_mem CartLine.id hci
    have hq : cartQty st.cart p.id = ci.quantity := by
      unfold cartQty
      rw [← hid, find?_cart_of_nodup st.cart ci hci hcn]
    have hval : stockDecAll st.cart p =
        { p with stock := p.stock - (ci.quantity : ℤ) } := by
      unfold stockDecAll
      rw [if_pos ⟨hty, hmem⟩, hq]
    exact hval ▸ List.mem_map_of_mem (stockDecAll st.cart) hp
  · intro hlt
    omega

/-- Witness for C10: stock 1, quantity sold 2 — the stored stock after the
sale is -1. -/
theorem finalize_sale_stock_no_lower_bound_witness :
    (⟨"p1", "A", "", "", "", "product", 3, -1, "pcs", ""⟩ : Item) ∈
        (finalize_sale
          ⟨[⟨"p1", "A", "", "", "", "product", 3, 1, "pcs", ""⟩],
           [⟨"p1", "A", "product", "pcs", 3, 2⟩], []⟩
          (162/25) 7 "sid" "ts").products ∧
      ((1 : ℤ) < 2 → (-1 : ℤ) < 0) := by
  have h := finalize_sale_stock_no_lower_bound
    ⟨[⟨"p1", "A", "", "", "", "product", 3, 1, "pcs", ""⟩],
     [⟨"p1", "A", "product", "pcs", 3, 2⟩], []⟩
    (162/25) 7 "sid" "ts" (by decide) (by decide)
    ⟨"p1", "A", "", "", "", "product", 3, 1, "pcs", ""⟩ (by decide) rfl
    ⟨"p1", "A", "product", "pcs", 3, 2⟩ (by decide) rfl
  constructor
  · have h1 := h.1
    have : ((1 : ℤ) - ((2 : ℕ) : ℤ)) = -1 := by norm_num
    rw [this] at h1
    exact h1
  · intro _
    norm_num

/-! ## Helper lemmas: ledger reader -/

/-- The data of one written sale: what `finalize_sale` had in hand when it
appended a block. -/
structure SaleInput where
  sale_id : String
  timestamp : String
  cart : List CartLine
  subtotal : ℚ
  total : ℚ
  tendered : ℚ
deriving DecidableEq, Repr

/-- The block the writer emits for one sale. -/
def saleInputBlock (s : SaleInput) : List LedgerLine :=
  saleBlock s.sale_id s.timestamp s.cart s.subtotal s.total s.tendered

/-- The record the reader recovers for one complete block. -/
def saleInputRecord (s : SaleInput) : SaleRecord :=
  saleBlockRecord s.sale_id s.timestamp s.cart s.subtotal s.total s.tendered

/-- Lines containing no `--- SALE END ---` marker never append a record:
whatever fields and items they accumulate are dropped when the file ends. -/
lemma readLedgerGo_no_end (ls : List LedgerLine)
    (h : LedgerLine.saleEnd ∉ ls) :
    ∀ sale items out, readLedgerGo ls sale items out = out := by
  induction ls with
  | nil => intro sale items out; rfl
  | cons line rest ih =>
    intro sale items out
    have hline : line ≠ .saleEnd := fun he => h (he ▸ List.mem_cons_self _ _)
    have hrest : LedgerLine.saleEnd ∉ rest :=
      fun hm => h (List.mem_cons_of_mem _ hm)
    cases line with
    | saleEnd => exact absurd rfl hline
    | saleStart => exact ih hrest _ _ _
    | idLine s => exact ih hrest _ _ _
    | timestampLine s => exact ih hrest _ _ _
    | itemLine a b c d e f => exact ih hrest _ _ _
    | subtotalLine q => exact ih hrest _ _ _
    | totalLine q => exact ih hrest _ _ _
    | tenderedLine q => exact ih hrest _ _ _
    | blank => exact ih hrest _ _ _
    | other s => exact ih hrest _ _ _

/-- Reading the written `ITEM:` lines accumulates the cart's items in
order. -/
lemma readLedgerGo_items (cart : List CartLine) (ls : List LedgerLine) :
    ∀ sale items out,
      readLedgerGo
        (cart.map (fun i => .itemLine i.id i.name i.quantity i.price i.type i.unit)
          ++ ls) sale items out =
      readLedgerGo ls sale (items ++ cart.map cartLineLedgerItem) out := by
  induction cart with
  | nil => intro sale items out; simp
  | cons i rest ih =>
    intro sale items out
    rw [List.map_cons, List.cons_append]
    show readLedgerGo (rest.map _ ++ ls) sale (items ++ [⟨i.id, i.name, i.quantity, i.price, i.type, i.unit⟩]) out = _
    rw [ih]
    rw [List.map_cons, List.append_assoc]
    rfl

/-- Reading one complete written block appends exactly its record and leaves
the parser holding the block's fields and items. -/
lemma readLedgerGo_block (s : SaleInput) (ls : List LedgerLine) :
    ∀ sale items out,
      readLedgerGo (saleInputBlock s ++ ls) sale items out =
        readLedgerGo ls
          ⟨some s.sale_id, some s.timestamp, some s.subtotal, some s.total,
            some s.tendered⟩
          (s.cart.map cartLineLedgerItem) (out ++ [saleInputRecord s]) := by
  intro sale items out
  show readLedgerGo
      ((s.cart.map (fun i => LedgerLine.itemLine i.id i.name i.quantity i.price i.type i.unit) ++
        [LedgerLine.subtotalLine s.subtotal, LedgerLine.totalLine s.total,
          LedgerLine.tenderedLine s.tendered, LedgerLine.saleEnd,
          LedgerLine.blank]) ++ ls)
      ⟨some s.sale_id, some s.timestamp, none, none, none⟩ [] out = _
  rw [List.append_assoc, readLedgerGo_items]
  show readLedgerGo ls
      ⟨some s.sale_id, some s.timestamp, some s.subtotal, some s.total,
        some s.tendered⟩
      ([] ++ s.cart.map cartLineLedgerItem)
      (out ++ [⟨⟨some s.sale_id, some s.timestamp, some s.subtotal, some s.total,
        some s.tendered⟩, [] ++ s.cart.map cartLineLedgerItem,
        s.total - s.subtotal⟩]) = _
  simp only [List.nil_append]
  rfl

/-- Reading a file of complete blocks followed by an END-free tail yields
exactly the blocks' records, in file order. -/
lemma readLedgerGo_blocks (sales : List SaleInput) (tail : List LedgerLine)
    (htail : LedgerLine.saleEnd ∉ tail) :
    ∀ sale items out,
      readLedgerGo ((sales.map saleInputBlock).flatten ++ tail) sale items out =
        out ++ sales.map saleInputRecord := by
  induction sales with
  | nil =>
    intro sale items out
    simp [readLedgerGo_no_end tail htail]
  | cons s ss ih =>
    intro sale items out
    rw [List.map_cons, List.flatten_cons, List.append_assoc, readLedgerGo_block,
      ih, List.map_cons, List.append_assoc, List.singleton_append]

/-- C7.  `readLedger` returns exactly the records of the complete
`SALE START`/`SALE END` blocks, in file order; a trailing block opened by a
`SALE START` with no matching `SALE END` (however many field or item lines
it accumulated) is silently dropped, not an error. -/
theorem readLedger_drops_truncated_block (sales : List SaleInput)
    (tail : List LedgerLine) (htail : LedgerLine.saleEnd ∉ tail) :
    readLedger ((sales.map saleInputBlock).flatten ++ tail) =
      sales.map saleInputRecord := by
  unfold readLedger
  rw [readLedgerGo_blocks sales tail htail, List.nil_append]

/-- Witness for C7: one complete block followed by a truncated block
(`SALE START`, an `ID:` line, an `ITEM:` line, no `SALE END`). -/
theorem readLedger_drops_truncated_block_witness :
    readLedger (([⟨"s1", "t1", [⟨"p1", "Coffee", "product", "pcs", 5/2, 2⟩],
          5, 27/5, 6⟩].map saleInputBlock).flatten ++
        [.saleStart, .idLine "s2", .itemLine "p2" "Tea" 1 (3/2) "product" "pcs"]) =
      [⟨"s1", "t1", [⟨"p1", "Coffee", "product", "pcs", 5/2, 2⟩],
          5, 27/5, 6⟩].map saleInputRecord :=
  readLedger_drops_truncated_block
    [⟨"s1", "t1", [⟨"p1", "Coffee", "product", "pcs", 5/2, 2⟩], 5, 27/5, 6⟩]
    [.saleStart, .idLine "s2", .itemLine "p2" "Tea" 1 (3/2) "product" "pcs"]
    (by decide)

/-! ## Helper lemmas: decimal printing and parsing -/

lemma digitVal_digitChar (d : ℕ) (h : d < 10) : digitVal (digitChar d) = some d := by
  interval_cases d <;> rfl

lemma digitsBEAux_lt (fuel : ℕ) : ∀ n, ∀ d ∈ digitsBEAux fuel n, d < 10 := by
  induction fuel with
  | zero => intro n d hd; cases hd
  | succ fuel ih =>
    intro n d hd
    unfold digitsBEAux at hd
    by_cases hn : n = 0
    · rw [if_pos hn] at hd
      cases hd
    · rw [if_neg hn] at hd
      rcases List.mem_append.mp hd with h1 | h1
      · exact ih (n / 10) d h1
      · rw [List.mem_singleton.mp h1]
        exact Nat.mod_lt n (by norm_num)

lemma natDigitsBE_lt (n : ℕ) : ∀ d ∈ natDigitsBE n, d < 10 := by
  intro d hd
  unfold natDigitsBE at hd
  by_cases hn : n = 0
  · rw [if_pos hn] at hd
    simp at hd
    omega
  · rw [if_neg hn] at hd
    exact digitsBEAux_lt n n d hd

lemma digitsBEAux_ne_nil (fuel n : ℕ) (hn : n ≠ 0) (hf : fuel ≠ 0) :
    digitsBEAux fuel n ≠ [] := by
  cases fuel with
  | zero => exact absurd rfl hf
  | succ fuel =>
    unfold digitsBEAux
    rw [if_neg hn]
    simp

lemma natDigitsBE_ne_nil (n : ℕ) : natDigitsBE n ≠ [] := by
  unfold natDigitsBE
  by_cases hn : n = 0
  · rw [if_pos hn]
    simp
  · rw [if_neg hn]
    exact digitsBEAux_ne_nil n n hn (fun h0 => hn h0)

lemma natToChars_ne_nil (n : ℕ) : natToChars n ≠ [] := by
  unfold natToChars
  simp [natDigitsBE_ne_nil n]

lemma ofDigits_digitsBEAux (fuel : ℕ) : ∀ n, n ≤ fuel →
    Nat.ofDigits 10 (digitsBEAux fuel n).reverse = n := by
  induction fuel with
  | zero =>
    intro n hn
    interval_cases n
    rfl
  | succ fuel ih =>
    intro n hn
    unfold digitsBEAux
    by_cases h0 : n = 0
    · rw [if_pos h0, h0]
      rfl
    · rw [if_neg h0, List.reverse_append]
      show Nat.ofDigits 10 (n % 10 :: (digitsBEAux fuel (n / 10)).reverse) = n
      rw [Nat.ofDigits_cons]
      have hdiv : n / 10 ≤ fuel := by
        have := Nat.div_lt_self (Nat.pos_of_ne_zero h0) (by norm_num : (1:ℕ) < 10)
        omega
      rw [ih (n / 10) hdiv]
      exact Nat.mod_add_div n 10

lemma ofDigits_natDigitsBE (n : ℕ) :
    Nat.ofDigits 10 (natDigitsBE n).reverse = n := by
  unfold natDigitsBE
  by_cases hn : n = 0
  · rw [if_pos hn, hn]
    rfl
  · rw [if_neg hn]
    exact ofDigits_digitsBEAux n n le_rfl

lemma mem_natToChars_props (n : ℕ) (c : Char) (h : c ∈ natToChars n) :
    c ≠ '.' ∧ c ≠ '-' ∧ c ≠ '|' ∧ isSpaceChar c = false ∧
      (digitVal c).isSome := by
  unfold natToChars at h
  obtain ⟨d, hd, rfl⟩ := List.mem_map.mp h
  have h10 := natDigitsBE_lt n d hd
  interval_cases d <;> exact ⟨by decide, by decide, by decide, by decide, by decide⟩

lemma digitsOfChars_append (a b : List Char) (da db : List ℕ)
    (ha : digitsOfChars a = some da) (hb : digitsOfChars b = some db) :
    digitsOfChars (a ++ b) = some (da ++ db) := by
  induction a generalizing da with
  | nil =>
    unfold digitsOfChars at ha
    cases ha
    simpa using hb
  | cons c cs ih =>
    unfold digitsOfChars at ha ⊢
    cases hv : digitVal c with
    | none => rw [hv] at ha; cases ha
    | some d =>
      rw [hv] at ha
      cases hds : digitsOfChars cs with
      | none => rw [hds] at ha; cases ha
      | some ds =>
        rw [hds] at ha
        cases ha
        rw [List.cons_append]
        show (match digitVal c, digitsOfChars (cs ++ b) with
          | some d, some ds => some (d :: ds)
          | _, _ => none) = _
        rw [hv, ih ds hds]
        rfl

lemma digitsOfChars_map_digitChar (ds : List ℕ) (h : ∀ d ∈ ds, d < 10) :
    digitsOfChars (ds.map digitChar) = some ds := by
  induction ds with
  | nil => rfl
  | cons d rest ih =>
    rw [List.map_cons]
    show (match digitVal (digitChar d), digitsOfChars (rest.map digitChar) with
      | some d, some ds => some (d :: ds)
      | _, _ => none) = _
    rw [digitVal_digitChar d (h d (by simp)), ih (fun x hx => h x (by simp [hx]))]

lemma digitsOfChars_replicate_zero (k : ℕ) :
    digitsOfChars (List.replicate k '0') = some (List.replicate k 0) := by
  induction k with
  | zero => rfl
  | succ k ih =>
    rw [List.replicate_succ, List.replicate_succ]
    show (match digitVal '0', digitsOfChars (List.replicate k '0') with
      | some d, some ds => some (d :: ds)
      | _, _ => none) = _
    rw [ih]
    rfl

lemma ofDigits_replicate_zero (k : ℕ) :
    Nat.ofDigits 10 (List.replicate k 0) = 0 := by
  induction k with
  | zero => rfl
  | succ k ih =>
    rw [List.replicate_succ, Nat.ofDigits_cons, ih]

lemma parseNat_pad_natToChars (k n : ℕ) :
    parseNatChars (List.replicate k '0' ++ natToChars n) = some n := by
  have hne : List.replicate k '0' ++ natToChars n ≠ [] := by
    intro hcon
    exact natToChars_ne_nil n (List.append_eq_nil.mp hcon).2
  have hdig : digitsOfChars (List.replicate k '0' ++ natToChars n) =
      some (List.replicate k 0 ++ natDigitsBE n) := by
    refine digitsOfChars_append _ _ _ _ (digitsOfChars_replicate_zero k) ?_
    exact digitsOfChars_map_digitChar _ (natDigitsBE_lt n)
  unfold parseNatChars
  rw [if_neg hne, hdig]
  simp only [Option.map_some']
  rw [List.reverse_append, List.reverse_replicate, Nat.ofDigits_append,
    ofDigits_replicate_zero, ofDigits_natDigitsBE]
  simp

lemma parseNat_natToChars (n : ℕ) : parseNatChars (natToChars n) = some n := by
  have := parseNat_pad_natToChars 0 n
  simpa using this

lemma parseInt_intToChars (z : ℤ) : parseIntChars (intToChars z) = some z := by
  by_cases hz : z < 0
  · unfold intToChars
    rw [if_pos hz]
    show (if ('-' : Char) = '-' then
        (parseNatChars (natToChars z.natAbs)).map (fun n => -(n : ℤ))
      else (parseNatChars ('-' :: natToChars z.natAbs)).map (fun n => (n : ℤ))) = _
    rw [if_pos rfl, parseNat_natToChars]
    show some (-(z.natAbs : ℤ)) = some z
    congr 1
    omega
  · unfold intToChars
    rw [if_neg hz]
    cases hc : natToChars z.toNat with
    | nil => exact absurd hc (natToChars_ne_nil _)
    | cons c cs =>
      have hprops := mem_natToChars_props z.toNat c (by rw [hc]; simp)
      show (if c = '-' then (parseNatChars cs).map (fun n => -(n : ℤ))
        else (parseNatChars (c :: cs)).map (fun n => (n : ℤ))) = _
      rw [if_neg hprops.2.1, ← hc, parseNat_natToChars]
      show some ((z.toNat : ℤ)) = some z
      congr 1
      omega

lemma splitOnChar_ne_nil (sep : Char) (l : List Char) :
    splitOnChar sep l ≠ [] := by
  cases l with
  | nil => simp [splitOnChar]
  | cons c cs =>
    unfold splitOnChar
    cases h : splitOnChar sep cs with
    | nil => by_cases hc : c = sep <;> simp [hc]
    | cons p ps => by_cases hc : c = sep <;> simp [hc]

lemma splitOnChar_cons (sep c : Char) (cs : List Char) :
    splitOnChar sep (c :: cs) =
      match splitOnChar sep cs with
      | [] => [[c]]
      | part :: parts =>
        if c = sep then [] :: part :: parts else (c :: part) :: parts := rfl

lemma splitOnChar_not_mem (sep : Char) (l : List Char) (h : sep ∉ l) :
    splitOnChar sep l = [l] := by
  induction l with
  | nil => rfl
  | cons c cs ih =>
    have hc : c ≠ sep := fun he => h (he ▸ List.mem_cons_self _ _)
    have hcs : sep ∉ cs := fun hm => h (List.mem_cons_of_mem _ hm)
    rw [splitOnChar_cons, ih hcs]
    simp [hc]

lemma splitOnChar_append_cons (sep : Char) (a b : List Char) (ha : sep ∉ a) :
    splitOnChar sep (a ++ sep :: b) = a :: splitOnChar sep b := by
  induction a with
  | nil =>
    rw [List.nil_append, splitOnChar_cons]
    cases h : splitOnChar sep b with
    | nil => exact absurd h (splitOnChar_ne_nil sep b)
    | cons p ps => simp
  | cons c cs ih =>
    have hc : c ≠ sep := fun he => ha (he ▸ List.mem_cons_self _ _)
    have hcs : sep ∉ cs := fun hm => ha (List.mem_cons_of_mem _ hm)
    rw [List.cons_append, splitOnChar_cons, ih hcs]
    simp [hc]

lemma digitsBEAux_length_le (fuel : ℕ) : ∀ n k, n ≤ fuel → n < 10 ^ k →
    (digitsBEAux fuel n).length ≤ k := by
  induction fuel with
  | zero =>
    intro n k _ _
    simp [digitsBEAux]
  | succ fuel ih =>
    intro n k hn hk
    unfold digitsBEAux
    by_cases h0 : n = 0
    · rw [if_pos h0]
      simp
    · rw [if_neg h0]
      have hkpos : 1 ≤ k := by
        by_contra hcon
        have : k = 0 := by omega
        rw [this] at hk
        omega
      have hdivfuel : n / 10 ≤ fuel := by
        have := Nat.div_lt_self (Nat.pos_of_ne_zero h0) (by norm_num : (1:ℕ) < 10)
        omega
      have hdivlt : n / 10 < 10 ^ (k - 1) := by
        rw [Nat.div_lt_iff_lt_mul (by norm_num : (0:ℕ) < 10)]
        calc n < 10 ^ k := hk
          _ = 10 ^ (k - 1) * 10 := by
            rw [← pow_succ]
            congr 1
            omega
      have := ih (n / 10) (k - 1) hdivfuel hdivlt
      rw [List.length_append]
      simp only [List.length_singleton]
      omega

lemma natToChars_length_le (n k : ℕ) (h1 : 1 ≤ k) (h2 : n < 10 ^ k) :
    (natToChars n).length ≤ k := by
  unfold natToChars natDigitsBE
  by_cases hn : n = 0
  · rw [if_pos hn]
    simpa using h1
  · rw [if_neg hn, List.length_map]
    exact digitsBEAux_length_le n n k le_rfl h2

/-- The body of `floatToCharsNN` with the scaled numerator and exponent
abstracted (for reasoning by cases on the exponent). -/
def floatCharsAux (m k : ℕ) : List Char :=
  natToChars (m / 10 ^ k) ++ '.' ::
    (List.replicate (k - (natToChars (m % 10 ^ k)).length) '0' ++
      natToChars (m % 10 ^ k))

lemma mem_floatCharsAux_props (m k : ℕ) (c : Char)
    (h : c ∈ floatCharsAux m k) :
    c ≠ '|' ∧ c ≠ '-' ∧ isSpaceChar c = false := by
  unfold floatCharsAux at h
  rcases List.mem_append.mp h with h1 | h1
  · have := mem_natToChars_props _ _ h1
    exact ⟨this.2.2.1, this.2.1, this.2.2.2.1⟩
  · rcases List.mem_cons.mp h1 with rfl | h2
    · exact ⟨by decide, by decide, by decide⟩
    · rcases List.mem_append.mp h2 with h3 | h3
      · rw [List.eq_of_mem_replicate h3]
        exact ⟨by decide, by decide, by decide⟩
      · have := mem_natToChars_props _ _ h3
        exact ⟨this.2.2.1, this.2.1, this.2.2.2.1⟩

lemma parseFloatNN_floatCharsAux (m k : ℕ) :
    parseFloatNN (floatCharsAux m k) = some ((m : ℚ) / 10 ^ k) := by
  have hAne : natToChars (m / 10 ^ k) ≠ [] := natToChars_ne_nil _
  have hAdot : '.' ∉ natToChars (m / 10 ^ k) :=
    fun hmem => (mem_natToChars_props _ _ hmem).1 rfl
  have hBdot : '.' ∉ List.replicate (k - (natToChars (m % 10 ^ k)).length) '0' ++
      natToChars (m % 10 ^ k) := by
    intro hmem
    rcases List.mem_append.mp hmem with h1 | h1
    · exact absurd (List.eq_of_mem_replicate h1) (by decide)
    · exact (mem_natToChars_props _ _ h1).1 rfl
  have hBne : List.replicate (k - (natToChars (m % 10 ^ k)).length) '0' ++
      natToChars (m % 10 ^ k) ≠ [] := by
    intro hcon
    exact natToChars_ne_nil _ (List.append_eq_nil.mp hcon).2
  have hsplit : splitOnChar '.' (floatCharsAux m k) =
      [natToChars (m / 10 ^ k),
        List.replicate (k - (natToChars (m % 10 ^ k)).length) '0' ++
          natToChars (m % 10 ^ k)] := by
    unfold floatCharsAux
    rw [splitOnChar_append_cons '.' _ _ hAdot, splitOnChar_not_mem '.' _ hBdot]
  have hparseA : parseNatOrEmpty (natToChars (m / 10 ^ k)) = some (m / 10 ^ k) := by
    unfold parseNatOrEmpty
    rw [if_neg hAne]
    exact parseNat_natToChars _
  have hparseB : parseNatOrEmpty
      (List.replicate (k - (natToChars (m % 10 ^ k)).length) '0' ++
        natToChars (m % 10 ^ k)) = some (m % 10 ^ k) := by
    unfold parseNatOrEmpty
    rw [if_neg hBne]
    exact parseNat_pad_natToChars _ _
  unfold parseFloatNN
  rw [hsplit]
  show (if (natToChars (m / 10 ^ k) = [] ∧
      (List.replicate (k - (natToChars (m % 10 ^ k)).length) '0' ++
        natToChars (m % 10 ^ k)) = []) then none
    else
      match parseNatOrEmpty (natToChars (m / 10 ^ k)),
        parseNatOrEmpty (List.replicate (k - (natToChars (m % 10 ^ k)).length) '0' ++
          natToChars (m % 10 ^ k)) with
      | some na, some nb =>
        some (mkRat (na * 10 ^
          (List.replicate (k - (natToChars (m % 10 ^ k)).length) '0' ++
            natToChars (m % 10 ^ k)).length + nb)
          (10 ^ (List.replicate (k - (natToChars (m % 10 ^ k)).length) '0' ++
            natToChars (m % 10 ^ k)).length))
      | _, _ => none) = some ((m : ℚ) / 10 ^ k)
  rw [if_neg (fun hc : _ ∧ _ => hAne hc.1), hparseA, hparseB]
  show some (mkRat (((m / 10 ^ k : ℕ) : ℤ) * 10 ^
      (List.replicate (k - (natToChars (m % 10 ^ k)).length) '0' ++
        natToChars (m % 10 ^ k)).length + ((m % 10 ^ k : ℕ) : ℤ))
      (10 ^ (List.replicate (k - (natToChars (m % 10 ^ k)).length) '0' ++
        natToChars (m % 10 ^ k)).length)) = some ((m : ℚ) / 10 ^ k)
  congr 1
  rw [Rat.mkRat_eq_div]
  rcases Nat.eq_zero_or_pos k with hk0 | hkpos
  · subst hk0
    rw [show m % 10 ^ 0 = 0 from by rw [pow_zero, Nat.mod_one],
      show m / 10 ^ 0 = m from by rw [pow_zero, Nat.div_one]]
    rw [show (List.replicate (0 - (natToChars 0).length) '0' ++
      natToChars 0).length = 1 from rfl]
    push_cast
    field_simp
  · have hmod : m % 10 ^ k < 10 ^ k := Nat.mod_lt m (by positivity)
    have hlen : (natToChars (m % 10 ^ k)).length ≤ k :=
      natToChars_length_le _ k hkpos hmod
    have hBlen : (List.replicate (k - (natToChars (m % 10 ^ k)).length) '0' ++
        natToChars (m % 10 ^ k)).length = k := by
      rw [List.length_append, List.length_replicate]
      omega
    rw [hBlen]
    have hz : ((m / 10 ^ k : ℕ) : ℤ) * 10 ^ k + ((m % 10 ^ k : ℕ) : ℤ) = (m : ℤ) := by
      exact_mod_cast Nat.div_add_mod' m (10 ^ k)
    rw [hz]
    push_cast
    rfl

lemma floatToCharsNN_eq_aux (q : ℚ) :
    floatToCharsNN q =
      floatCharsAux (q.num.toNat * (10 ^ decDigitsExp q / q.den))
        (decDigitsExp q) := rfl

lemma scaled_num_eq (q : ℚ) (hq : 0 ≤ q) (h : DecimalRat q) :
    ((q.num.toNat * (10 ^ decDigitsExp q / q.den) : ℕ) : ℚ) =
      q * 10 ^ decDigitsExp q := by
  have hden : (q.den : ℚ) ≠ 0 := Nat.cast_ne_zero.mpr q.den_nz
  have hcancel : 10 ^ decDigitsExp q / q.den * q.den = 10 ^ decDigitsExp q :=
    Nat.div_mul_cancel h
  have hN : q.num.toNat * (10 ^ decDigitsExp q / q.den) * q.den =
      q.num.toNat * 10 ^ decDigitsExp q := by
    rw [mul_assoc, hcancel]
  have h1 : ((q.num.toNat * (10 ^ decDigitsExp q / q.den) : ℕ) : ℚ) * (q.den : ℚ) =
      ((q.num.toNat : ℕ) : ℚ) * (10 : ℚ) ^ decDigitsExp q := by
    exact_mod_cast congrArg (fun x : ℕ => (x : ℚ)) hN
  have h2 : ((q.num.toNat : ℕ) : ℚ) = ((q.num : ℤ) : ℚ) := by
    exact_mod_cast congrArg (fun z : ℤ => (z : ℚ))
      (Int.toNat_of_nonneg (Rat.num_nonneg.mpr hq))
  have h3 : q * 10 ^ decDigitsExp q * (q.den : ℚ) =
      ((q.num : ℤ) : ℚ) * 10 ^ decDigitsExp q := by
    rw [mul_right_comm, Rat.mul_den_eq_num]
  apply mul_right_cancel₀ hden
  rw [h1, h2, h3]

lemma parseFloatNN_floatToCharsNN (q : ℚ) (hq : 0 ≤ q) (h : DecimalRat q) :
    parseFloatNN (floatToCharsNN q) = some q := by
  rw [floatToCharsNN_eq_aux, parseFloatNN_floatCharsAux]
  congr 1
  rw [scaled_num_eq q hq h]
  have h10 : ((10 : ℚ)) ^ decDigitsExp q ≠ 0 := by positivity
  exact mul_div_cancel_right₀ q h10

lemma mem_floatToCharsNN_props (q : ℚ) (c : Char) (h : c ∈ floatToCharsNN q) :
    c ≠ '|' ∧ c ≠ '-' ∧ isSpaceChar c = false := by
  rw [floatToCharsNN_eq_aux] at h
  exact mem_floatCharsAux_props _ _ c h

lemma mem_floatToChars_props (q : ℚ) (c : Char) (h : c ∈ floatToChars q) :
    c ≠ '|' ∧ isSpaceChar c = false := by
  unfold floatToChars at h
  by_cases hq : q < 0
  · rw [if_pos hq] at h
    rcases List.mem_cons.mp h with rfl | h2
    · exact ⟨by decide, by decide⟩
    · have := mem_floatToCharsNN_props _ _ h2
      exact ⟨this.1, this.2.2⟩
  · rw [if_neg hq] at h
    have := mem_floatToCharsNN_props _ _ h
    exact ⟨this.1, this.2.2⟩

lemma decDigitsExp_neg (q : ℚ) : decDigitsExp (-q) = decDigitsExp q := by
  unfold decDigitsExp
  rw [Rat.neg_den]

lemma parseFloat_floatToChars (q : ℚ) (h : DecimalRat q) :
    parseFloatChars (floatToChars q) = some q := by
  by_cases hq : q < 0
  · have hdec : DecimalRat (-q) := by
      unfold DecimalRat at h ⊢
      rw [Rat.neg_den, decDigitsExp_neg]
      exact h
    unfold floatToChars
    rw [if_pos hq]
    show (if ('-' : Char) = '-' then (parseFloatNN (floatToCharsNN (-q))).map Neg.neg
      else parseFloatNN ('-' :: floatToCharsNN (-q))) = _
    rw [if_pos rfl, parseFloatNN_floatToCharsNN (-q) (by linarith) hdec]
    show some (- - q) = some q
    rw [neg_neg]
  · unfold floatToChars
    rw [if_neg hq]
    cases hc : floatToCharsNN q with
    | nil =>
      have : natToChars (q.num.toNat * (10 ^ decDigitsExp q / q.den) / 10 ^ decDigitsExp q) ++
          '.' :: (List.replicate _ '0' ++ natToChars _) = [] := hc
      exact absurd (List.append_eq_nil.mp this).2 (by simp)
    | cons c cs =>
      have hcmem : c ∈ floatToCharsNN q := by
        rw [hc]
        exact List.mem_cons_self _ _
      have hprops := mem_floatToCharsNN_props q c hcmem
      show (if c = '-' then (parseFloatNN cs).map Neg.neg
        else parseFloatNN (c :: cs)) = _
      rw [if_neg hprops.2.1, ← hc]
      exact parseFloatNN_floatToCharsNN q (by linarith) h

/-! ## Helper lemmas: pipe-format round trip -/

lemma mem_intToChars_props (z : ℤ) (c : Char) (h : c ∈ intToChars z) :
    c ≠ '|' ∧ isSpaceChar c = false := by
  unfold intToChars at h
  by_cases hz : z < 0
  · rw [if_pos hz] at h
    rcases List.mem_cons.mp h with rfl | h2
    · exact ⟨by decide, by decide⟩
    · have := mem_natToChars_props _ _ h2
      exact ⟨this.2.2.1, this.2.2.2.1⟩
  · rw [if_neg hz] at h
    have := mem_natToChars_props _ _ h
    exact ⟨this.2.2.1, this.2.2.2.1⟩

lemma length_dropWhile_le (p : Char → Bool) (l : List Char) :
    (l.dropWhile p).length ≤ l.length := by
  induction l with
  | nil => simp
  | cons c cs ih =>
    rw [List.dropWhile_cons]
    by_cases h : p c
    · rw [if_pos h]
      simp only [List.length_cons]
      omega
    · rw [if_neg h]

lemma dropWhile_pipe_stable (a r : List Char)
    (ha : a.dropWhile isSpaceChar = a) :
    (a ++ '|' :: r).dropWhile isSpaceChar = a ++ '|' :: r := by
  cases a with
  | nil =>
    rw [List.nil_append, List.dropWhile_cons]
    have hsp : isSpaceChar '|' = false := by decide
    rw [hsp]
    simp
  | cons c cs =>
    have hc : isSpaceChar c = false := by
      cases hcc : isSpaceChar c
      · rfl
      · rw [List.dropWhile_cons, hcc] at ha
        have h1 := length_dropWhile_le isSpaceChar cs
        have h2 := congrArg List.length ha
        simp at h2
        omega
    rw [List.cons_append, List.dropWhile_cons, hc]
    simp

lemma stripChars_saveTxtLine (p : Item) (hlead : NoLeadSpace p.id.data)
    (htrail : NoTrailSpace p.description.data) :
    stripChars (saveTxtLine p) = saveTxtLine p := by
  have hform : saveTxtLine p =
      (p.id.data ++ '|' :: (p.name.data ++ '|' :: (p.category.data ++ '|' ::
        (p.type.data ++ '|' :: (floatToChars p.price ++ '|' ::
        (intToChars p.stock ++ '|' :: p.unit.data)))))) ++
        '|' :: p.description.data := by
    unfold saveTxtLine
    simp [List.append_assoc]
  have h1 : (saveTxtLine p).dropWhile isSpaceChar = saveTxtLine p := by
    unfold saveTxtLine
    exact dropWhile_pipe_stable p.id.data _ hlead
  have h2 : (saveTxtLine p).reverse.dropWhile isSpaceChar =
      (saveTxtLine p).reverse := by
    rw [hform, List.reverse_append]
    have hrev : (('|' :: p.description.data).reverse : List Char) =
        p.description.data.reverse ++ ['|'] := by simp
    rw [hrev, List.append_assoc]
    exact dropWhile_pipe_stable p.description.data.reverse _ htrail
  unfold stripChars
  rw [h1, h2, List.reverse_reverse]

lemma saveTxtLine_ne_nil (p : Item) : saveTxtLine p ≠ [] := by
  unfold saveTxtLine
  intro hcon
  have := (List.append_eq_nil.mp hcon).2
  simp at this

lemma parseTxtLine_saveTxtLine (p : Item) (h : TxtItemWF p) :
    parseTxtLine (saveTxtLine p) = .ok p := by
  obtain ⟨hid, hname, hcat, hty, hunit, hdesc, hlead, htrail, hdec, hmain, hsub⟩ := h
  have hpid : '|' ∉ p.id.data := fun hm => (hid _ hm).1 rfl
  have hpname : '|' ∉ p.name.data := fun hm => (hname _ hm).1 rfl
  have hpcat : '|' ∉ p.category.data := fun hm => (hcat _ hm).1 rfl
  have hpty : '|' ∉ p.type.data := fun hm => (hty _ hm).1 rfl
  have hpunit : '|' ∉ p.unit.data := fun hm => (hunit _ hm).1 rfl
  have hpdesc : '|' ∉ p.description.data := fun hm => (hdesc _ hm).1 rfl
  have hprice : '|' ∉ floatToChars p.price :=
    fun hm => (mem_floatToChars_props _ _ hm).1 rfl
  have hstock : '|' ∉ intToChars p.stock :=
    fun hm => (mem_intToChars_props _ _ hm).1 rfl
  have hstrip := stripChars_saveTxtLine p hlead htrail
  have hne := saveTxtLine_ne_nil p
  have hsplit : splitOnChar '|' (saveTxtLine p) =
      [p.id.data, p.name.data, p.category.data, p.type.data,
        floatToChars p.price, intToChars p.stock, p.unit.data,
        p.description.data] := by
    unfold saveTxtLine
    rw [splitOnChar_append_cons '|' _ _ hpid,
      splitOnChar_append_cons '|' _ _ hpname,
      splitOnChar_append_cons '|' _ _ hpcat,
      splitOnChar_append_cons '|' _ _ hpty,
      splitOnChar_append_cons '|' _ _ hprice,
      splitOnChar_append_cons '|' _ _ hstock,
      splitOnChar_append_cons '|' _ _ hpunit,
      splitOnChar_not_mem '|' _ hpdesc]
  unfold parseTxtLine
  rw [hstrip, if_neg hne, hsplit]
  show parseTxtFields p.id.data p.name.data p.category.data p.type.data
    (floatToChars p.price) (intToChars p.stock) p.unit.data
    p.description.data = TxtParse.ok p
  unfold parseTxtFields
  rw [parseFloat_floatToChars p.price hdec, parseInt_intToChars p.stock]
  show TxtParse.ok (txtFieldsItem p.id.data p.name.data p.category.data
    p.type.data p.price p.stock p.unit.data p.description.data) =
    TxtParse.ok p
  congr 1
  unfold txtFieldsItem
  have hmk : ∀ s : String, String.mk s.data = s := fun s => rfl
  obtain ⟨pid, pname, pcat, pmain, psub, pty, ppr, pst, pun, pde⟩ := p
  simp only [] at hmain hsub
  simp [Item.mk.injEq, hmk, hmain, hsub]

lemma loadTxtGo_map_save (ps : List Item) (h : ∀ p ∈ ps, TxtItemWF p) :
    ∀ acc, loadTxtGo (ps.map saveTxtLine) acc = (acc ++ ps, false) := by
  induction ps with
  | nil =>
    intro acc
    simp [loadTxtGo]
  | cons p rest ih =>
    intro acc
    rw [List.map_cons]
    show (match parseTxtLine (saveTxtLine p) with
      | .ok item => loadTxtGo (rest.map saveTxtLine) (acc ++ [item])
      | .skip => loadTxtGo (rest.map saveTxtLine) acc
      | .err => (acc, true)) = (acc ++ p :: rest, false)
    rw [parseTxtLine_saveTxtLine p (h p (by simp))]
    show loadTxtGo (rest.map saveTxtLine) (acc ++ [p]) = (acc ++ p :: rest, false)
    rw [ih (fun x hx => h x (by simp [hx])) (acc ++ [p])]
    simp

lemma pyIdChain_of_ne (s : String) (hs : s ≠ "") (pid : Option String)
    (fresh : String) : pyIdChain (some s) pid fresh = s := by
  simp [pyIdChain, strTruthy, hs]

lemma load_json_item_round (fresh : String) (p : Item) (hid : p.id ≠ "") :
    load_data_json_item fresh (save_products_json_item p) = p := by
  unfold load_data_json_item save_products_json_item
  rw [pyIdChain_of_ne p.id hid none fresh]
  simp [Option.getD_some]

lemma load_csv_row_round (fresh : String) (p : Item) (hid : p.id ≠ "")
    (hdec : DecimalRat p.price) :
    load_data_csv_row fresh (save_products_csv_row p) = some p := by
  unfold load_data_csv_row save_products_csv_row
  simp [pyIdChain, strTruthy, hid, parseFloat_floatToChars p.price hdec,
    parseInt_intToChars p.stock]
lemma load_data_json_round (fresh : String) (ps : List Item)
    (h : ∀ p ∈ ps, p.id ≠ "") :
    load_data_json fresh (save_products_json ps) = ps := by
  unfold load_data_json save_products_json
  rw [List.map_map]
  have : ∀ p ∈ ps, (load_data_json_item fresh ∘ save_products_json_item) p = p :=
    fun p hp => load_json_item_round fresh p (h p hp)
  rw [List.map_congr_left this]
  simp

lemma load_data_csv_round (fresh : String) (ps : List Item)
    (h : ∀ p ∈ ps, p.id ≠ "" ∧ DecimalRat p.price) :
    load_data_csv fresh (save_products_csv ps) = some ps := by
  induction ps with
  | nil => rfl
  | cons p rest ih =>
    unfold save_products_csv at ih ⊢
    rw [List.map_cons]
    show (match load_data_csv_row fresh (save_products_csv_row p),
      load_data_csv fresh (rest.map save_products_csv_row) with
      | some i, some is => some (i :: is)
      | _, _ => none) = some (p :: rest)
    rw [load_csv_row_round fresh p (h p (by simp)).1 (h p (by simp)).2,
      ih (fun x hx => h x (by simp [hx]))]

/-- C5 (amended).  Save-then-load reproduces the item set field-for-field in
each format, for item sets in the format's representable class: JSON needs
only truthy (non-empty) ids; CSV additionally a price with a finite decimal
expansion; the extended pipe format additionally delimiter-free fields, no
whitespace at the stripped line ends, `category_main = category` and
`category_sub = ""` (the pipe format stores neither split-category field,
which is what refutes the unconditional claim). -/
theorem save_load_round_trip (ps : List Item) (fresh : String)
    (prior : List Item) :
    ((∀ p ∈ ps, p.id ≠ "") →
      load_data_json fresh (save_products_json ps) = ps) ∧
      ((∀ p ∈ ps, p.id ≠ "" ∧ DecimalRat p.price) →
        load_data_csv fresh (save_products_csv ps) = some ps) ∧
      ((∀ p ∈ ps, TxtItemWF p) →
        load_data_txt prior (ps.map saveTxtLine) = (ps, false)) := by
  refine ⟨fun h => load_data_json_round fresh ps h,
    fun h => load_data_csv_round fresh ps h, fun h => ?_⟩
  unfold load_data_txt
  rw [loadTxtGo_map_save ps h []]
  simp

/-- Counterexample to C5 as stated: an item whose `category_main` differs
from `category` (and whose `category_sub` is non-empty) is well-formed for
the in-memory dict, but the extended pipe format does not store those two
fields: load-after-save returns it with `category_main` reset to the
`category` column and `category_sub` to `""`, so the round trip is not
field-for-field. -/
theorem save_load_round_trip_counterexample :
    load_data_txt []
        [saveTxtLine ⟨"p1", "A", "Other", "Main", "Sub", "product", 2, 3,
          "pcs", "d"⟩] ≠
      ([⟨"p1", "A", "Other", "Main", "Sub", "product", 2, 3, "pcs", "d"⟩],
        false) := by decide

/-- Witness for C5: a concrete one-item catalog round-trips in all three
formats. -/
theorem save_load_round_trip_witness :
    load_data_json "f" (save_products_json
        [⟨"p1", "A", "Other", "Other", "", "product", 2, 3, "pcs", "d"⟩]) =
      [⟨"p1", "A", "Other", "Other", "", "product", 2, 3, "pcs", "d"⟩] ∧
      load_data_csv "f" (save_products_csv
          [⟨"p1", "A", "Other", "Other", "", "product", 2, 3, "pcs", "d"⟩]) =
        some [⟨"p1", "A", "Other", "Other", "", "product", 2, 3, "pcs", "d"⟩] ∧
      load_data_txt []
          ([⟨"p1", "A", "Other", "Other", "", "product", 2, 3, "pcs", "d"⟩].map
            saveTxtLine) =
        ([⟨"p1", "A", "Other", "Other", "", "product", 2, 3, "pcs", "d"⟩],
          false) := by
  have h := save_load_round_trip
    [⟨"p1", "A", "Other", "Other", "", "product", 2, 3, "pcs", "d"⟩] "f" []
  exact ⟨h.1 (by decide), h.2.1 (by decide), h.2.2 (by decide)⟩

lemma loadTxtGo_err (good : List (List Char)) (items : List Item)
    (hgood : List.Forall₂ (fun l i => parseTxtLine l = TxtParse.ok i) good items)
    (bad : List Char) (hbad : parseTxtLine bad = .err)
    (rest : List (List Char)) :
    ∀ acc, loadTxtGo (good ++ bad :: rest) acc = (acc ++ items, true) := by
  induction hgood with
  | nil =>
    intro acc
    rw [List.nil_append]
    show (match parseTxtLine bad with
      | .ok item => loadTxtGo rest (acc ++ [item])
      | .skip => loadTxtGo rest acc
      | .err => (acc, true)) = (acc ++ [], true)
    rw [hbad]
    simp
  | cons hpl _hrest ih =>
    intro acc
    rw [List.cons_append]
    rename_i l i ls is
    show (match parseTxtLine l with
      | .ok item => loadTxtGo (ls ++ bad :: rest) (acc ++ [item])
      | .skip => loadTxtGo (ls ++ bad :: rest) acc
      | .err => (acc, true)) = (acc ++ i :: is, true)
    rw [hpl]
    show loadTxtGo (ls ++ bad :: rest) (acc ++ [i]) = (acc ++ i :: is, true)
    rw [ih (acc ++ [i])]
    simp

lemma loadTxtGo_skip (l : List Char) (hl : parseTxtLine l = .skip)
    (good rest : List (List Char)) :
    ∀ acc, loadTxtGo (good ++ l :: rest) acc = loadTxtGo (good ++ rest) acc := by
  induction good with
  | nil =>
    intro acc
    rw [List.nil_append, List.nil_append]
    show (match parseTxtLine l with
      | .ok item => loadTxtGo rest (acc ++ [item])
      | .skip => loadTxtGo rest acc
      | .err => (acc, true)) = loadTxtGo rest acc
    rw [hl]
  | cons g gs ih =>
    intro acc
    rw [List.cons_append, List.cons_append]
    show (match parseTxtLine g with
      | .ok item => loadTxtGo (gs ++ l :: rest) (acc ++ [item])
      | .skip => loadTxtGo (gs ++ l :: rest) acc
      | .err => (acc, true)) =
      (match parseTxtLine g with
      | .ok item => loadTxtGo (gs ++ rest) (acc ++ [item])
      | .skip => loadTxtGo (gs ++ rest) acc
      | .err => (acc, true))
    cases parseTxtLine g with
    | ok item => exact ih (acc ++ [item])
    | skip => exact ih acc
    | err => rfl

lemma parseTxtLine_skip_of_short (l : List Char) (hne : stripChars l ≠ [])
    (hlen : (splitOnChar '|' (stripChars l)).length < 4) :
    parseTxtLine l = .skip := by
  unfold parseTxtLine
  rw [if_neg hne]
  cases h1 : splitOnChar '|' (stripChars l) with
  | nil => rfl
  | cons a t1 =>
    cases t1 with
    | nil => rfl
    | cons b t2 =>
      cases t2 with
      | nil => rfl
      | cons c t3 =>
        cases t3 with
        | nil => rfl
        | cons d t4 =>
          rw [h1] at hlen
          simp at hlen
          omega

/-- C6 (amended).  On a TXT catalog the two malformation kinds behave
differently, and neither matches the claim: a row with fewer than 4 fields
is silently skipped (the load continues and reports no error), while a
non-numeric price or stock aborts the loop with the error dialog — but the
in-memory list then holds exactly the rows parsed before the bad one, not
the pre-load list, which `load_data` cleared on entry. -/
theorem load_data_txt_malformed (prior : List Item)
    (good : List (List Char)) (items : List Item)
    (hgood : List.Forall₂ (fun l i => parseTxtLine l = TxtParse.ok i) good items)
    (rest : List (List Char)) :
    (∀ bad, parseTxtLine bad = .err →
      load_data_txt prior (good ++ bad :: rest) = (items, true)) ∧
      (∀ l, stripChars l ≠ [] →
        (splitOnChar '|' (stripChars l)).length < 4 →
        load_data_txt prior (good ++ l :: rest) =
          load_data_txt prior (good ++ rest)) := by
  constructor
  · intro bad hbad
    unfold load_data_txt
    rw [loadTxtGo_err good items hgood bad hbad rest []]
    simp
  · intro l hne hlen
    unfold load_data_txt
    rw [loadTxtGo_skip l (parseTxtLine_skip_of_short l hne hlen) good rest []]

/-- Counterexample to C6 as stated: loading a file whose only row has two
fields succeeds with no error and an empty product list — the claim's
"fails the whole load with a data-format error" and "the pre-load product
list is what remains observable" are both false (the pre-load list held one
item and was cleared). -/
theorem load_data_txt_malformed_counterexample :
    load_data_txt [⟨"p0", "Old", "", "", "", "product", 1, 1, "pcs", ""⟩]
        [['a', 'b', '|', 'c', 'd']] = ([], false) := by decide

/-- Witness for C6: one good row followed by a row with a non-numeric price
aborts with exactly the good row loaded. -/
theorem load_data_txt_malformed_witness :
    load_data_txt [⟨"p0", "Old", "", "", "", "product", 1, 1, "pcs", ""⟩]
        ([saveTxtLine ⟨"p1", "A", "Other", "Other", "", "product", 2, 3,
          "pcs", "d"⟩] ++
          ['z' :: '|' :: 'B' :: '|' :: 'x' :: 'x' :: '|' :: ['3']] ) =
      ([⟨"p1", "A", "Other", "Other", "", "product", 2, 3, "pcs", "d"⟩],
        true) := by
  have h := load_data_txt_malformed
    [⟨"p0", "Old", "", "", "", "product", 1, 1, "pcs", ""⟩]
    [saveTxtLine ⟨"p1", "A", "Other", "Other", "", "product", 2, 3, "pcs", "d"⟩]
    [⟨"p1", "A", "Other", "Other", "", "product", 2, 3, "pcs", "d"⟩]
    (List.Forall₂.cons (parseTxtLine_saveTxtLine _ (by decide))
      List.Forall₂.nil) []
  have h2 := h.1 ('z' :: '|' :: 'B' :: '|' :: 'x' :: 'x' :: '|' :: ['3'])
    (by decide)
  exact h2
